import Mathlib

/-!
Verification of the date-extraction and renaming engine of `date_renamer/renamer.py`
(class `DateFileRenamer`).

The Python code is embedded shallowly over `List Char`:

* each regex of `self.date_patterns` / `self.datetime_patterns` becomes an explicit
  matcher function with the same greedy/backtracking behaviour and the same capture
  groups (`matchP1` … `matchP6`, `matchDT`);
* `re.search` becomes `reSearch`, a leftmost scan over the filename padded with one
  space on each side (the code searches `f" {filename} "`);
* the shared interpretation body of `extract_date` becomes `interpYMD`/`interp`,
  with Python exceptions modelled by `Except PyErr` (`ValueError` is caught by the
  `except ValueError: continue` of the pattern loop, a `KeyError` from
  `month_map[...]` would propagate);
* `datetime.strptime(s, "%Y%m%d")` / `("%Y%m%d%H%M%S")` become `strpYmdOk` /
  `strpYmdHMSOk` (see the comment there for why the aligned-field reading is the
  correct model for the strings this program builds);
* the pure renaming core of `rename_file` (the part that computes the new file
  name from `filename`, `matched_str` and `date_str`) becomes `compute_new_name`.
-/

/-- Codepoint of a character, as a `Nat` (used throughout instead of `Char` order). -/
def chNat (c : Char) : Nat := c.toNat

/-- Numeric value of a digit character (codepoint minus 48). -/
def chVal (c : Char) : Nat := c.toNat - 48

/-- The regex class `\d`: ASCII digits `'0'`(48) … `'9'`(57). -/
def isDig (c : Char) : Bool := decide (48 ≤ c.toNat ∧ c.toNat ≤ 57)

/-- The regex class `[-_]` used as separator in the date patterns. -/
def isSepChar (c : Char) : Bool := decide (c = '-' ∨ c = '_')

/-- The regex class `[-,_]` used between day and year in the Month-DD-YY pattern. -/
def isSepComma (c : Char) : Bool := decide (c = '-' ∨ c = ',' ∨ c = '_')

/-- Python `str.isspace` characters relevant to `str.strip()`:
space(32), tab(9), newline(10), carriage return(13), vertical tab(11), form feed(12). -/
def pyIsSpace (c : Char) : Bool :=
  decide (c.toNat = 32 ∨ c.toNat = 9 ∨ c.toNat = 10 ∨ c.toNat = 13 ∨
          c.toNat = 11 ∨ c.toNat = 12)

/-- Python `str.strip()`: remove whitespace from both ends. -/
def pyStrip (l : List Char) : List Char :=
  ((l.dropWhile pyIsSpace).reverse.dropWhile pyIsSpace).reverse

/-- Python `str.capitalize()`: first character uppercased, the rest lowercased. -/
def pyCapitalize : List Char → List Char
  | [] => []
  | c :: cs => c.toUpper :: cs.map Char.toLower

/-- Python `str.zfill(2)`: left-pad with `'0'` to length 2 (longer strings unchanged). -/
def pyZfill2 (l : List Char) : List Char := List.replicate (2 - l.length) '0' ++ l

/-- Numeric value of a digit string, as computed by Python `int(...)`. -/
def charsVal (l : List Char) : Nat := l.foldl (fun a c => 10 * a + chVal c) 0

/-- Python exceptions that the extraction code can raise internally. -/
inductive PyErr where
  | valueError
  | keyError
deriving DecidableEq

/-- Decidable equality for `Except` results (used to state and check concrete
evaluations of the extraction functions). -/
instance exceptDecEq {ε α : Type} [DecidableEq ε] [DecidableEq α] :
    DecidableEq (Except ε α) := fun x y =>
  match x, y with
  | .ok a, .ok b =>
    if h : a = b then isTrue (h ▸ rfl) else isFalse fun he => h (Except.ok.inj he)
  | .error a, .error b =>
    if h : a = b then isTrue (h ▸ rfl) else isFalse fun he => h (Except.error.inj he)
  | .ok _, .error _ => isFalse fun h => Except.noConfusion h
  | .error _, .ok _ => isFalse fun h => Except.noConfusion h

/-- Python `int(s)` on a string: the numeric value for a non-empty all-digit string,
`ValueError` otherwise (signs and whitespace never occur in the captured groups). -/
def pyInt (l : List Char) : Except PyErr Nat :=
  if l ≠ [] ∧ l.all isDig = true then .ok (charsVal l) else .error .valueError

/-- Python substring containment `needle in hay` (contiguous). -/
def containsSub (needle : List Char) : List Char → Bool
  | [] => needle.isEmpty
  | c :: t => needle.isPrefixOf (c :: t) || containsSub needle t

/-- The keys of `self.month_map`, in insertion order (also the alternation order of
the `month_names` regex group). -/
def monthNames : List (List Char) :=
  ["Jan".data, "Feb".data, "Mar".data, "Apr".data, "May".data, "Jun".data,
   "Jul".data, "Aug".data, "Sep".data, "Oct".data, "Nov".data, "Dec".data]

/-- `self.month_map`: month abbreviation → two-digit month number. -/
def month_map : List (List Char × List Char) :=
  [("Jan".data, "01".data), ("Feb".data, "02".data), ("Mar".data, "03".data),
   ("Apr".data, "04".data), ("May".data, "05".data), ("Jun".data, "06".data),
   ("Jul".data, "07".data), ("Aug".data, "08".data), ("Sep".data, "09".data),
   ("Oct".data, "10".data), ("Nov".data, "11".data), ("Dec".data, "12".data)]

/-- `self.month_map[k]`: association lookup, `KeyError` when the key is absent. -/
def monthLookup (k : List Char) : Except PyErr (List Char) :=
  match month_map.find? (fun p => p.1 == k) with
  | some p => .ok p.2
  | none => .error .keyError

/-- The guard `any(month.upper() in g.upper() for month in self.month_map.keys())`. -/
def containsMonth (g : List Char) : Bool :=
  monthNames.any (fun n => containsSub (n.map Char.toUpper) (g.map Char.toUpper))

/-- Take exactly `n` characters matching `\d`, returning them and the rest. -/
def takeDigits : Nat → List Char → Option (List Char × List Char)
  | 0, s => some ([], s)
  | _ + 1, [] => none
  | n + 1, c :: s =>
    if isDig c then
      match takeDigits n s with
      | some (ds, r) => some (c :: ds, r)
      | none => none
    else none

/-- Take one `[-_]` separator character. -/
def takeSep : List Char → Option (Char × List Char)
  | [] => none
  | c :: s => if isSepChar c then some (c, s) else none

/-- Take one `[-,_]` separator character. -/
def takeSepComma : List Char → Option (Char × List Char)
  | [] => none
  | c :: s => if isSepComma c then some (c, s) else none

/-- The lookahead `(?!\d)`: `true` when the next character is a digit. -/
def headDigit : List Char → Bool
  | [] => false
  | c :: _ => isDig c

/-- Case-insensitive month alternation `(?:Jan|Feb|…|Dec)` (the patterns are compiled
with `re.IGNORECASE`, which for these ASCII names is upper-case-folded comparison);
captures the original text. -/
def takeMonthAux : List (List Char) → List Char → Option (List Char × List Char)
  | [], _ => none
  | n :: ns, s =>
    if n.length ≤ s.length ∧ (s.take n.length).map Char.toUpper = n.map Char.toUpper then
      some (s.take n.length, s.drop n.length)
    else takeMonthAux ns s

/-- Match the month-name group at the head of `s`. -/
def takeMonth (s : List Char) : Option (List Char × List Char) :=
  takeMonthAux monthNames s

/-- A match of one of the three-group date patterns: the captured groups
(`match.groups()`) and the whole matched text (`match.group()`). -/
structure DMatch where
  g1 : List Char
  g2 : List Char
  g3 : List Char
  text : List Char
deriving DecidableEq

/-- Pattern 1, `(\d{4})[-_](\d{2})[-_](\d{2})` (YYYY-MM-DD / YYYY_MM_DD).
No digit-boundary assertions. -/
def matchP1 (_prev : Char) (s : List Char) : Option (DMatch × List Char) := do
  let (g1, r1) ← takeDigits 4 s
  let (s1, r2) ← takeSep r1
  let (g2, r3) ← takeDigits 2 r2
  let (s2, r4) ← takeSep r3
  let (g3, r5) ← takeDigits 2 r4
  pure (⟨g1, g2, g3, g1 ++ [s1] ++ g2 ++ [s2] ++ g3⟩, r5)

/-- Pattern 2, `(\d{2})[-_](\d{2})[-_](\d{4})` (DD-MM-YYYY / DD_MM_YYYY).
No digit-boundary assertions. -/
def matchP2 (_prev : Char) (s : List Char) : Option (DMatch × List Char) := do
  let (g1, r1) ← takeDigits 2 s
  let (s1, r2) ← takeSep r1
  let (g2, r3) ← takeDigits 2 r2
  let (s2, r4) ← takeSep r3
  let (g3, r5) ← takeDigits 4 r4
  pure (⟨g1, g2, g3, g1 ++ [s1] ++ g2 ++ [s2] ++ g3⟩, r5)

/-- Pattern 3, `(?<!\d)(\d{4})(\d{2})(\d{2})(?!\d)` (YYYYMMDD, no separators). -/
def matchP3 (prev : Char) (s : List Char) : Option (DMatch × List Char) :=
  if isDig prev then none
  else do
    let (g1, r1) ← takeDigits 4 s
    let (g2, r2) ← takeDigits 2 r1
    let (g3, r3) ← takeDigits 2 r2
    if headDigit r3 then none
    else pure (⟨g1, g2, g3, g1 ++ g2 ++ g3⟩, r3)

/-- Pattern 4, `(?<!\d)(\d{2})(\d{2})(\d{4})(?!\d)` (MMDDYYYY, no separators). -/
def matchP4 (prev : Char) (s : List Char) : Option (DMatch × List Char) :=
  if isDig prev then none
  else do
    let (g1, r1) ← takeDigits 2 s
    let (g2, r2) ← takeDigits 2 r1
    let (g3, r3) ← takeDigits 4 r2
    if headDigit r3 then none
    else pure (⟨g1, g2, g3, g1 ++ g2 ++ g3⟩, r3)

/-- Tail of pattern 5 after the optional second separator: `(\d{2})(?!\d)`. -/
def p5tail (g1 s1 cap s2 r : List Char) : Option (DMatch × List Char) :=
  match takeDigits 2 r with
  | none => none
  | some (g3, r3) =>
    if headDigit r3 then none
    else some (⟨g1, cap, g3, g1 ++ s1 ++ cap ++ s2 ++ g3⟩, r3)

/-- Pattern 5 after the month group: greedy optional `[-_]?`, then the tail
(backtracks to the no-separator reading when the greedy one fails). -/
def p5afterMonth (g1 s1 cap r : List Char) : Option (DMatch × List Char) :=
  (match takeSep r with
   | some (c, r2) => p5tail g1 s1 cap [c] r2
   | none => none) <|>
  p5tail g1 s1 cap [] r

/-- Pattern 5 after the day group: greedy optional `[-_]?`, then the month group. -/
def p5afterG1 (g1 r : List Char) : Option (DMatch × List Char) :=
  (match takeSep r with
   | some (c, r2) =>
     match takeMonth r2 with
     | some (cap, r3) => p5afterMonth g1 [c] cap r3
     | none => none
   | none => none) <|>
  (match takeMonth r with
   | some (cap, r3) => p5afterMonth g1 [] cap r3
   | none => none)

/-- Pattern 5, `(\d{1,2})[-_]?(Mon)[-_]?(\d{2})(?!\d)` (DD-Mon-YY); `\d{1,2}` is
greedy, so the two-digit reading is tried before the one-digit one. -/
def matchP5 (_prev : Char) (s : List Char) : Option (DMatch × List Char) :=
  (match takeDigits 2 s with
   | some (g1, r) => p5afterG1 g1 r
   | none => none) <|>
  (match takeDigits 1 s with
   | some (g1, r) => p5afterG1 g1 r
   | none => none)

/-- Tail of pattern 6 after the optional `[-,_]?`: `(\d{2})(?!\d)`. -/
def p6tail (cap s1 g2 s2 r : List Char) : Option (DMatch × List Char) :=
  match takeDigits 2 r with
  | none => none
  | some (g3, r3) =>
    if headDigit r3 then none
    else some (⟨cap, g2, g3, cap ++ s1 ++ g2 ++ s2 ++ g3⟩, r3)

/-- Pattern 6 after the day group: greedy optional `[-,_]?`, then the tail. -/
def p6afterG2 (cap s1 g2 r : List Char) : Option (DMatch × List Char) :=
  (match takeSepComma r with
   | some (c, r2) => p6tail cap s1 g2 [c] r2
   | none => none) <|>
  p6tail cap s1 g2 [] r

/-- Pattern 6 after the optional first separator: greedy `(\d{1,2})`. -/
def p6afterSep (cap s1 r : List Char) : Option (DMatch × List Char) :=
  (match takeDigits 2 r with
   | some (g2, r2) => p6afterG2 cap s1 g2 r2
   | none => none) <|>
  (match takeDigits 1 r with
   | some (g2, r2) => p6afterG2 cap s1 g2 r2
   | none => none)

/-- Pattern 6, `(Mon)[-_]?(\d{1,2})[-,_]?(\d{2})(?!\d)` (Mon-DD-YY). -/
def matchP6 (_prev : Char) (s : List Char) : Option (DMatch × List Char) :=
  match takeMonth s with
  | none => none
  | some (cap, r) =>
    (match takeSep r with
     | some (c, r2) => p6afterSep cap [c] r2
     | none => none) <|>
    p6afterSep cap [] r

/-- A match of the datetime pattern: the seven groups (the millisecond group may be
`None`) and the whole matched text. -/
structure DTMatch where
  y : List Char
  mo : List Char
  d : List Char
  h : List Char
  mi : List Char
  s : List Char
  ms : Option (List Char)
  text : List Char
deriving DecidableEq

/-- The (single) datetime pattern,
`(\d{4})(\d{2})(\d{2})[-_](\d{2})(\d{2})(\d{2})(\d{3})?`.
No digit-boundary assertions; the optional millisecond group is greedy. -/
def matchDT (_prev : Char) (s0 : List Char) : Option (DTMatch × List Char) := do
  let (y, r1) ← takeDigits 4 s0
  let (mo, r2) ← takeDigits 2 r1
  let (d, r3) ← takeDigits 2 r2
  let (sep, r4) ← takeSep r3
  let (h, r5) ← takeDigits 2 r4
  let (mi, r6) ← takeDigits 2 r5
  let (se, r7) ← takeDigits 2 r6
  match takeDigits 3 r7 with
  | some (ms, r8) =>
    pure (⟨y, mo, d, h, mi, se, some ms, y ++ mo ++ d ++ [sep] ++ h ++ mi ++ se ++ ms⟩, r8)
  | none =>
    pure (⟨y, mo, d, h, mi, se, none, y ++ mo ++ d ++ [sep] ++ h ++ mi ++ se⟩, r7)

/-- `re.search` body: try the matcher at every position, left to right, returning
the first match. `prev` is the character before the current position (for the
`(?<!\d)` lookbehind). -/
def searchAux {α : Type} (m : Char → List Char → Option (α × List Char)) :
    Char → List Char → Option α
  | _, [] => none
  | prev, c :: cs =>
    match m prev (c :: cs) with
    | some (a, _) => some a
    | none => searchAux m c cs

/-- `re.search(pattern, f" {filename} ")`: leftmost match against the space-padded
filename. The initial `prev` is irrelevant (position 0 holds the pad space, which
no pattern can match) and is taken to be a space, which is not a digit — exactly
the behaviour of the regex lookbehind at the start of the string. -/
def reSearch {α : Type} (m : Char → List Char → Option (α × List Char))
    (f : List Char) : Option α :=
  searchAux m ' ' (' ' :: (f ++ [' ']))

/-- Leap-year rule of the proleptic Gregorian calendar used by `datetime`. -/
def isLeapYear (y : Nat) : Bool := decide ((y % 4 = 0 ∧ y % 100 ≠ 0) ∨ y % 400 = 0)

/-- Days in a month, as enforced by the `datetime.date` constructor. -/
def daysInMonth (y m : Nat) : Nat :=
  if m = 2 then (if isLeapYear y then 29 else 28)
  else if m = 4 ∨ m = 6 ∨ m = 9 ∨ m = 11 then 30 else 31

/-- The checks of the `datetime.date(year, month, day)` constructor
(`MINYEAR = 1`, `MAXYEAR = 9999`). -/
def dateCtorOk (y m d : Nat) : Bool :=
  decide (1 ≤ y ∧ y ≤ 9999 ∧ 1 ≤ m ∧ m ≤ 12 ∧ 1 ≤ d ∧ d ≤ daysInMonth y m)

/-- The time checks of the `datetime.datetime` constructor. -/
def timeCtorOk (h mi s : Nat) : Bool := decide (h ≤ 23 ∧ mi ≤ 59 ∧ s ≤ 59)

/-- Models `datetime.strptime(s, "%Y%m%d")` succeeding.

`extract_date` only ever passes 8-digit strings here (4-digit year, and month/day
zero-filled to 2 digits). On such strings CPython's `_strptime` format regex
(`%Y` = `\d{4}`, `%m` = `1[0-2]|0[1-9]|[1-9]`, `%d` = `3[01]|[12]\d|0[1-9]|[1-9]`)
lists every two-digit alternative before the one-digit one, so the first match is
the aligned 4-2-2 split whenever that split's fields are accepted; any other first
match consumes fewer than 8 characters and fails the subsequent
"unconverted data remains" length check with `ValueError`. Hence on 8-digit input
success is exactly: aligned fields accepted and the `datetime` constructor checks
pass, which is what this definition states (non-8-digit strings are unreachable). -/
def strpYmdOk (s : List Char) : Bool :=
  decide (s.length = 8) && s.all isDig &&
  dateCtorOk (charsVal (s.take 4)) (charsVal ((s.drop 4).take 2)) (charsVal (s.drop 6))

/-- Models `datetime.strptime(s, "%Y%m%d%H%M%S")` succeeding; `extract_datetime`
only ever passes 14-digit strings (six fixed-width capture groups), and the same
first-match/length-check argument as for `strpYmdOk` applies (`%H`, `%M`, `%S`
also list two-digit alternatives first; seconds 60 and 61 pass the regex but are
rejected by the `datetime` constructor). -/
def strpYmdHMSOk (s : List Char) : Bool :=
  decide (s.length = 14) && s.all isDig &&
  dateCtorOk (charsVal (s.take 4)) (charsVal ((s.drop 4).take 2))
    (charsVal ((s.drop 6).take 2)) &&
  timeCtorOk (charsVal ((s.drop 8).take 2)) (charsVal ((s.drop 10).take 2))
    (charsVal (s.drop 12))

/-- The group-interpretation block of `extract_date`: decides which captured group
is the year, month and day, exactly following the `if/elif/else` chain of the
source. Returns `(year, month, day)` as strings, or the Python exception. -/
def interpYMD (dm : DMatch) : Except PyErr (List Char × List Char × List Char) :=
  if containsMonth dm.g2 then
    -- DD-Mon-YY format
    match monthLookup (pyCapitalize dm.g2) with
    | .error e => .error e
    | .ok mo =>
      let day := if dm.g1.length = 1 then pyZfill2 dm.g1 else dm.g1
      let year := if dm.g3.length = 2 then '2' :: '0' :: dm.g3 else dm.g3
      .ok (year, mo, day)
  else if containsMonth dm.g1 then
    -- Mon-DD-YY format
    match monthLookup (pyCapitalize dm.g1) with
    | .error e => .error e
    | .ok mo =>
      let day := if dm.g2.length = 1 then pyZfill2 dm.g2 else dm.g2
      let year := if dm.g3.length = 2 then '2' :: '0' :: dm.g3 else dm.g3
      .ok (year, mo, day)
  else if '-' ∈ dm.text ∨ '_' ∈ dm.text then
    -- separator-based patterns (DD-MM-YYYY or YYYY-MM-DD)
    if dm.g1.length = 4 then .ok (dm.g1, dm.g2, dm.g3)
    else .ok (dm.g3, dm.g2, dm.g1)
  else
    -- no separators: YYYYMMDD vs MMDDYYYY
    if dm.g1.length = 4 then .ok (dm.g1, dm.g2, dm.g3)
    else
      match pyInt dm.g1 with
      | .error e => .error e
      | .ok ft =>
        if 1 ≤ ft ∧ ft ≤ 12 then .ok (dm.g3, dm.g1, dm.g2)
        else .ok (dm.g3, dm.g2, dm.g1)

/-- The whole `try:` body of `extract_date` for one match: interpret the groups,
assemble `f"{year}{month.zfill(2)}{day.zfill(2)}"` and validate it with
`datetime.strptime(date_str, '%Y%m%d')` (failure raises `ValueError`). -/
def interp (dm : DMatch) : Except PyErr (List Char) :=
  match interpYMD dm with
  | .error e => .error e
  | .ok (year, month, day) =>
    let date_str := year ++ pyZfill2 month ++ pyZfill2 day
    if strpYmdOk date_str then .ok date_str else .error .valueError

/-- The `self.date_patterns` table, in insertion (= priority) order. -/
def dateMatchers : List (Char → List Char → Option (DMatch × List Char)) :=
  [matchP1, matchP2, matchP3, matchP4, matchP5, matchP6]

/-- The pattern loop of `extract_date`: first regex occurrence per pattern; a
`ValueError` from the body is caught and the next pattern is tried; any other
exception propagates. -/
def dateLoop : List (Char → List Char → Option (DMatch × List Char)) → List Char →
    Except PyErr (Option (List Char × List Char))
  | [], _ => .ok none
  | m :: ms, f =>
    match reSearch m f with
    | none => dateLoop ms f
    | some dm =>
      match interp dm with
      | .ok ds => .ok (some (ds, pyStrip dm.text))
      | .error .valueError => dateLoop ms f
      | .error e => .error e

/-- `DateFileRenamer.extract_date(filename)`: `(date_str, match.group().strip())`
on success, `(None, None)` when no pattern yields a valid date. -/
def extract_date (f : List Char) : Except PyErr (Option (List Char × List Char)) :=
  dateLoop dateMatchers f

/-- `DateFileRenamer.extract_datetime(filename)`: `(iso_str, matched, True)` on
success, `(None, None, False)` otherwise. Only the first regex occurrence is
examined: a `ValueError` from validation `continue`s to the next pattern of
`self.datetime_patterns`, and there is none. -/
def extract_datetime (f : List Char) :
    Except PyErr (Option (List Char × List Char) × Bool) :=
  match reSearch matchDT f with
  | none => .ok (none, false)
  | some m =>
    let date_str := m.y ++ m.mo ++ m.d
    let time_str := m.h ++ m.mi ++ m.s
    if strpYmdHMSOk (date_str ++ time_str) then
      let iso := date_str ++ 'T' :: time_str ++
        (match m.ms with
         | some ms => '.' :: ms
         | none => [])
      .ok (some (iso, pyStrip m.text), true)
    else .ok (none, false)

/-- `filename.rsplit('.', 1)[0]`: the text before the last `'.'`, or the whole
string when there is no dot. -/
def stemOf (f : List Char) : List Char :=
  if '.' ∈ f then ((f.reverse.dropWhile (fun c => c != '.')).drop 1).reverse else f

/-- `filename.split('.')[-1]`: the text after the last `'.'`, or the whole string
when there is no dot. -/
def extOf (f : List Char) : List Char :=
  (f.reverse.takeWhile (fun c => c != '.')).reverse

/-- Whether a list starts with a `[-_]` separator. -/
def headSepOf : List Char → Bool
  | [] => false
  | c :: _ => isSepChar c

/-- Fuel-indexed body of `subBoth` (the fuel is the input length, which always
suffices: every step consumes at least one character). -/
def subBothF (m : List Char) : Nat → List Char → List Char
  | _, [] => []
  | 0, l => l
  | fuel + 1, c :: rest =>
    if isSepChar c ∧ m.isPrefixOf rest ∧ headSepOf (rest.drop m.length) then
      '_' :: subBothF m fuel (rest.drop (m.length + 1))
    else c :: subBothF m fuel rest

/-- `re.sub(f'[-_]{re.escape(m)}[-_]', '_', target)`: replace every non-overlapping
separator-flanked occurrence of the matched text by a single underscore. -/
def subBoth (m l : List Char) : List Char := subBothF m l.length l

/-- Fuel-indexed body of `subLeft`. -/
def subLeftF (m : List Char) : Nat → List Char → List Char
  | _, [] => []
  | 0, l => l
  | fuel + 1, c :: rest =>
    if isSepChar c ∧ m.isPrefixOf rest then subLeftF m fuel (rest.drop m.length)
    else c :: subLeftF m fuel rest

/-- `re.sub(f'[-_]{re.escape(m)}', '', target)`: delete every occurrence preceded
by a separator (separator included). -/
def subLeft (m l : List Char) : List Char := subLeftF m l.length l

/-- Fuel-indexed body of `subRight`. -/
def subRightF (m : List Char) : Nat → List Char → List Char
  | _, [] => []
  | 0, l => l
  | fuel + 1, c :: rest =>
    if m.isPrefixOf (c :: rest) ∧ headSepOf ((c :: rest).drop m.length) then
      subRightF m fuel ((c :: rest).drop (m.length + 1))
    else c :: subRightF m fuel rest

/-- `re.sub(f'{re.escape(m)}[-_]', '', target)`: delete every occurrence followed
by a separator (separator included). -/
def subRight (m l : List Char) : List Char := subRightF m l.length l

/-- Fuel-indexed helper for `pyReplace` (the needle is non-empty there, so each
replacement consumes at least one character and the fuel always suffices). -/
def replAuxF (m : List Char) : Nat → List Char → List Char
  | _, [] => []
  | 0, l => l
  | fuel + 1, c :: rest =>
    if m.isPrefixOf (c :: rest) then replAuxF m fuel ((c :: rest).drop m.length)
    else c :: replAuxF m fuel rest

/-- Python `target.replace(m, '')`: delete every non-overlapping occurrence
(left to right; a degenerate empty needle leaves the string unchanged, and never
arises from extraction). -/
def pyReplace (target m : List Char) : List Char :=
  if m.isEmpty then target else replAuxF m target.length target

/-- Fuel-indexed body of `collapseSeps`. -/
def collapseSepsF : Nat → List Char → List Char
  | _, [] => []
  | 0, l => l
  | fuel + 1, c :: rest =>
    if isSepChar c then '_' :: collapseSepsF fuel (rest.dropWhile isSepChar)
    else c :: collapseSepsF fuel rest

/-- `re.sub(r'[-_]+', '_', target)`: collapse every maximal run of separators into
a single underscore. -/
def collapseSeps (l : List Char) : List Char := collapseSepsF l.length l

/-- Python `s.strip('_')`: remove underscores from both ends. -/
def stripUS (l : List Char) : List Char :=
  ((l.dropWhile (fun c => c == '_')).reverse.dropWhile (fun c => c == '_')).reverse

/-- The pure renaming core of `rename_file`: from the original `filename`, the
`matched_str` returned by extraction and the normalized `date_str`, compute
`new_filename` exactly as lines 159-189 of `renamer.py` do. -/
def compute_new_name (filename matched_str date_str : List Char) : List Char :=
  let name_without_ext := stemOf filename
  let ext := extOf filename
  -- Strategy 1: remove with separator on both sides
  let n1 := subBoth matched_str name_without_ext
  -- Strategy 2: remove with separator on left only
  let n2 := if n1 = name_without_ext then subLeft matched_str name_without_ext else n1
  -- Strategy 3: remove with separator on right only
  let n3 := if n2 = name_without_ext then subRight matched_str name_without_ext else n2
  -- Strategy 4: direct string replacement
  let n4 := if n3 = name_without_ext then pyReplace name_without_ext matched_str else n3
  -- Clean up separators, strip underscores, attach prefix and extension
  let cleaned := stripUS (collapseSeps n4)
  date_str ++ '_' :: (cleaned ++ '.' :: ext)

/-! ## Specification-side predicates (from the claims' wording) -/

/-- A date stamp as the specification describes it: an 8-digit `YYYYMMDD` string
whose fields form a calendar-valid date. -/
def validDateStamp8 (s : List Char) : Bool :=
  decide (s.length = 8) && s.all isDig &&
  dateCtorOk (charsVal (s.take 4)) (charsVal ((s.drop 4).take 2)) (charsVal (s.drop 6))

/-- A datetime stamp as the specification describes it: `YYYYMMDDTHHMMSS`,
optionally followed by `.mmm`, with a calendar-valid date part and a valid
time of day (hour 0-23, minute 0-59, second 0-59). -/
def validDatetimeStamp (s : List Char) : Bool :=
  let rest := s.drop 8
  let t := rest.drop 1
  let time := t.take 6
  let tail := t.drop 6
  validDateStamp8 (s.take 8) &&
  (rest.head? == some 'T') &&
  decide (time.length = 6) && time.all isDig &&
  timeCtorOk (charsVal (time.take 2)) (charsVal ((time.drop 2).take 2))
    (charsVal (time.drop 4)) &&
  (tail.isEmpty ||
    (tail.head? == some '.' && decide (tail.length = 4) && (tail.drop 1).all isDig))

/-- Helper for `allOccBounded`: scan `f` position by position, remembering the
previous character. -/
def occBoundedAux (m : List Char) : Option Char → List Char → Bool
  | _, [] => true
  | prev, c :: rest =>
    (if m.isPrefixOf (c :: rest) then
       (match prev with
        | some p => !(isDig p)
        | none => true) &&
       (!(headDigit ((c :: rest).drop m.length)))
     else true) && occBoundedAux m (some c) rest

/-- Claim C5's boundary property: every occurrence of `m` inside `f` has no digit
immediately before it and no digit immediately after it. -/
def allOccBounded (m f : List Char) : Bool := occBoundedAux m none f

/-- The stem computation claim C2 asserts: the text before the first `'.'`. -/
def specFirstDotStem (f : List Char) : List Char :=
  f.takeWhile (fun c => c != '.')

/-! ## Concrete claim theorems -/

/-- C6: `extract_date("report_03152024.txt")` returns `("20240315", "03152024")`:
the 8 contiguous digits are first matched by the YYYYMMDD pattern but fail
calendar validation (aligned month field "20"), and the next pattern interprets
them as MMDDYYYY because the first two-digit group 03 lies in the range 1-12. -/
theorem C6_mmddyyyy_fallback :
    extract_date ("report_03152024.txt".data) =
      .ok (some ("20240315".data, "03152024".data)) ∧
    strpYmdOk ("03152024".data) = false := by
  constructor
  · decide
  · decide

/-- C7: `extract_date("IMG-20260204-WA0002.jpeg")` returns
`("20260204", "20260204")`: the YYYYMMDD rule precedes the MMDDYYYY rule and
yields a calendar-valid date. -/
theorem C7_yyyymmdd_priority :
    extract_date ("IMG-20260204-WA0002.jpeg".data) =
      .ok (some ("20260204".data, "20260204".data)) := by
  decide

/-- C2 counterexample: on `"PXL_20260204_181153683.MP.jpg"` (a filename with more
than one dot) the rewrite's stem is the text before the **last** dot,
`"PXL_20260204_181153683.MP"`, not the text before the first dot
`"PXL_20260204_181153683"` that the claim states. -/
theorem C2_counterexample :
    stemOf ("PXL_20260204_181153683.MP.jpg".data) =
      "PXL_20260204_181153683.MP".data ∧
    specFirstDotStem ("PXL_20260204_181153683.MP.jpg".data) =
      "PXL_20260204_181153683".data ∧
    stemOf ("PXL_20260204_181153683.MP.jpg".data) ≠
      specFirstDotStem ("PXL_20260204_181153683.MP.jpg".data) := by
  refine ⟨by decide, by decide, by decide⟩

/-- C3 (code bug): for the extension-less filename `"report_20240315"` the code
takes `filename.split('.')[-1]` — the whole name — as the extension, so the
produced name is `"20240315_report.report_20240315"`: it contains a dot and an
appended copy of the entire original name, instead of the `"20240315_report"`
(no dot, no appended extension separator) that the claim and the specification
require. -/
theorem C3_code_behavior :
    extract_date ("report_20240315".data) =
      .ok (some ("20240315".data, "20240315".data)) ∧
    compute_new_name ("report_20240315".data) ("20240315".data) ("20240315".data) =
      "20240315_report.report_20240315".data := by
  refine ⟨by decide, by decide⟩

/-- C4 counterexample: in `"20260204_251153_20260204_181153"` the first occurrence
matching the datetime pattern is `"20260204_251153"` (hour 25, fails validation)
and a later occurrence `"20260204_181153"` is a valid datetime, yet
`extract_datetime` returns no-match — it does not continue searching for another
occurrence in the same filename. -/
theorem C4_counterexample :
    reSearch matchDT ("20260204_251153_20260204_181153".data) =
      some ⟨"2026".data, "02".data, "04".data, "25".data, "11".data, "53".data,
            none, "20260204_251153".data⟩ ∧
    strpYmdHMSOk ("20260204251153".data) = false ∧
    containsSub ("20260204_181153".data)
      ("20260204_251153_20260204_181153".data) = true ∧
    strpYmdHMSOk ("20260204181153".data) = true ∧
    extract_datetime ("20260204_251153_20260204_181153".data) = .ok (none, false) := by
  refine ⟨by decide, by decide, by decide, by decide, by decide⟩

/-- C5 counterexample: on `"a12024-01-152"` the first date pattern (which carries
no digit-boundary assertions) matches `"2024-01-15"` inside the longer digit run
`"12024…152"`; the returned matched text is immediately preceded and followed by
a digit in the filename. -/
theorem C5_counterexample :
    extract_date ("a12024-01-152".data) =
      .ok (some ("20240115".data, "2024-01-15".data)) ∧
    allOccBounded ("2024-01-15".data) ("a12024-01-152".data) = false := by
  refine ⟨by decide, by decide⟩

/-! ## Character-level lemmas -/

/-- `Char.ofNat` round-trip on small codepoints. -/
theorem toNat_ofNat_of_lt {n : Nat} (h : n < 55296) : (Char.ofNat n).toNat = n := by
  have hv : n.isValidChar := Or.inl h
  rw [Char.ofNat, dif_pos hv]
  rfl

/-- Characters with equal codepoints are equal. -/
theorem char_eq_of_toNat_eq {a b : Char} (h : a.toNat = b.toNat) : a = b := by
  have h2 := congrArg Char.ofNat h
  rwa [Char.ofNat_toNat, Char.ofNat_toNat] at h2

/-- If `c` uppercases to the capital letter `U`, then `c` is `U` itself or the
corresponding lowercase letter. -/
theorem toNat_cases_of_toUpper {c U : Char} (h : c.toUpper = U)
    (h1 : 65 ≤ U.toNat) (h2 : U.toNat ≤ 90) :
    c.toNat = U.toNat ∨ c.toNat = U.toNat + 32 := by
  simp only [Char.toUpper] at h
  by_cases hc : c.toNat ≥ 97 ∧ c.toNat ≤ 122
  · rw [if_pos hc] at h
    right
    have h3 := congrArg Char.toNat h
    rw [toNat_ofNat_of_lt (by omega)] at h3
    omega
  · rw [if_neg hc] at h
    left
    rw [← h]

/-- If `c` uppercases to the capital letter `U`, it lowercases to the letter with
codepoint `U + 32`. -/
theorem toLower_of_toUpper {c U L : Char} (h : c.toUpper = U)
    (h1 : 65 ≤ U.toNat) (h2 : U.toNat ≤ 90) (hL : L.toNat = U.toNat + 32) :
    c.toLower = L := by
  apply char_eq_of_toNat_eq
  rcases toNat_cases_of_toUpper h h1 h2 with hc | hc
  · simp only [Char.toLower]
    rw [if_pos (by omega)]
    rw [toNat_ofNat_of_lt (by omega)]
    omega
  · simp only [Char.toLower]
    rw [if_neg (by omega)]
    omega

/-- A digit character is unchanged by `Char.toUpper`. -/
theorem toUpper_of_digit {c : Char} (h : isDig c = true) : c.toUpper = c := by
  simp only [isDig, decide_eq_true_eq] at h
  simp only [Char.toUpper]
  rw [if_neg (by omega)]

/-! ## Matcher building-block lemmas -/

/-- `takeDigits n` consumes a length-`n` all-digit prefix. -/
theorem takeDigits_spec : ∀ {n : Nat} {s ds r : List Char},
    takeDigits n s = some (ds, r) →
    s = ds ++ r ∧ ds.length = n ∧ ds.all isDig = true
  | 0, s, ds, r, h => by
    simp only [takeDigits, Option.some.injEq, Prod.mk.injEq] at h
    simp [← h.1, ← h.2]
  | n + 1, [], ds, r, h => by simp [takeDigits] at h
  | n + 1, c :: cs, ds, r, h => by
    simp only [takeDigits] at h
    by_cases hc : isDig c = true
    · rw [if_pos hc] at h
      cases htd : takeDigits n cs with
      | none => rw [htd] at h; exact absurd h (by simp)
      | some p =>
        obtain ⟨ds', r'⟩ := p
        rw [htd] at h
        simp only [Option.some.injEq, Prod.mk.injEq] at h
        obtain ⟨h1, h2⟩ := h
        obtain ⟨ha, hb, hd⟩ := takeDigits_spec htd
        subst h2
        simp [← h1, ha, hb, hd, hc]
    · rw [if_neg hc] at h
      exact absurd h (by simp)

/-- `takeSep` consumes one separator character. -/
theorem takeSep_spec {s : List Char} {c : Char} {r : List Char}
    (h : takeSep s = some (c, r)) : s = c :: r ∧ isSepChar c = true := by
  cases s with
  | nil => simp [takeSep] at h
  | cons a as =>
    simp only [takeSep] at h
    by_cases ha : isSepChar a = true
    · rw [if_pos ha] at h
      simp only [Option.some.injEq, Prod.mk.injEq] at h
      obtain ⟨h1, h2⟩ := h
      subst h1; subst h2
      exact ⟨rfl, ha⟩
    · rw [if_neg ha] at h
      exact absurd h (by simp)

/-- `takeSepComma` consumes one separator-or-comma character. -/
theorem takeSepComma_spec {s : List Char} {c : Char} {r : List Char}
    (h : takeSepComma s = some (c, r)) : s = c :: r ∧ isSepComma c = true := by
  cases s with
  | nil => simp [takeSepComma] at h
  | cons a as =>
    simp only [takeSepComma] at h
    by_cases ha : isSepComma a = true
    · rw [if_pos ha] at h
      simp only [Option.some.injEq, Prod.mk.injEq] at h
      obtain ⟨h1, h2⟩ := h
      subst h1; subst h2
      exact ⟨rfl, ha⟩
    · rw [if_neg ha] at h
      exact absurd h (by simp)

/-- A month capture: its upper-cased text equals the upper-cased text of one of
the twelve month abbreviations. -/
def MonthCap (g : List Char) : Prop :=
  ∃ n ∈ monthNames, g.map Char.toUpper = n.map Char.toUpper

/-- `takeMonthAux` consumes a case-insensitive occurrence of one of its names. -/
theorem takeMonthAux_spec : ∀ {ms : List (List Char)} {s cap r : List Char},
    takeMonthAux ms s = some (cap, r) →
    ∃ n ∈ ms, s = cap ++ r ∧ cap.map Char.toUpper = n.map Char.toUpper ∧
      cap.length = n.length
  | [], s, cap, r, h => by simp [takeMonthAux] at h
  | n :: ns, s, cap, r, h => by
    simp only [takeMonthAux] at h
    by_cases hc : n.length ≤ s.length ∧
        (s.take n.length).map Char.toUpper = n.map Char.toUpper
    · rw [if_pos hc] at h
      simp only [Option.some.injEq, Prod.mk.injEq] at h
      obtain ⟨h1, h2⟩ := h
      refine ⟨n, by simp, ?_, ?_, ?_⟩
      · rw [← h1, ← h2]; exact (List.take_append_drop _ _).symm
      · rw [← h1]; exact hc.2
      · rw [← h1]; simp [List.length_take]; omega
    · rw [if_neg hc] at h
      obtain ⟨n', hn', hrest⟩ := takeMonthAux_spec h
      exact ⟨n', by simp [hn'], hrest⟩

/-- `takeMonth` consumes a three-character month capture. -/
theorem takeMonth_spec {s cap r : List Char} (h : takeMonth s = some (cap, r)) :
    s = cap ++ r ∧ MonthCap cap ∧ cap.length = 3 := by
  obtain ⟨n, hn, hs, hmap, hlen⟩ := takeMonthAux_spec h
  have h3 : n.length = 3 := by
    have : ∀ x ∈ monthNames, x.length = 3 := by decide
    exact this n hn
  exact ⟨hs, ⟨n, hn, hmap⟩, by omega⟩

/-! ## Whitespace and month-name lemmas -/

/-- No character of the list is Python whitespace. -/
def NoSpace (t : List Char) : Prop := ∀ c ∈ t, pyIsSpace c = false

/-- Codepoints at or above 33 are not Python whitespace. -/
theorem pyIsSpace_false_of_ge {c : Char} (h : 33 ≤ c.toNat) : pyIsSpace c = false := by
  simp only [pyIsSpace, decide_eq_false_iff_not]
  omega

/-- Digit strings contain no whitespace. -/
theorem noSpace_of_digits {l : List Char} (h : l.all isDig = true) : NoSpace l := by
  intro c hc
  have hd := (List.all_eq_true.mp h) c hc
  simp only [isDig, decide_eq_true_eq] at hd
  exact pyIsSpace_false_of_ge (by omega)

/-- Separator characters are not whitespace. -/
theorem noSpace_of_sep {c : Char} (h : isSepChar c = true) : pyIsSpace c = false := by
  simp only [isSepChar, decide_eq_true_eq] at h
  rcases h with h | h <;> subst h <;> decide

/-- Separator-or-comma characters are not whitespace. -/
theorem noSpace_of_sepComma {c : Char} (h : isSepComma c = true) : pyIsSpace c = false := by
  simp only [isSepComma, decide_eq_true_eq] at h
  rcases h with h | h | h <;> subst h <;> decide

/-- Month captures contain no whitespace. -/
theorem noSpace_of_monthCap {g : List Char} (h : MonthCap g) : NoSpace g := by
  obtain ⟨n, hn, hmap⟩ := h
  intro c hc
  have hcu : c.toUpper ∈ n.map Char.toUpper := by
    rw [← hmap]
    exact List.mem_map_of_mem Char.toUpper hc
  have hbound : ∀ u ∈ n.map Char.toUpper, 65 ≤ u.toNat ∧ u.toNat ≤ 90 := by
    have hall : ∀ x ∈ monthNames, ∀ u ∈ x.map Char.toUpper,
        65 ≤ u.toNat ∧ u.toNat ≤ 90 := by decide
    exact hall n hn
  obtain ⟨hb1, hb2⟩ := hbound _ hcu
  rcases toNat_cases_of_toUpper rfl hb1 hb2 with hc2 | hc2 <;>
    exact pyIsSpace_false_of_ge (by omega)

/-- `NoSpace` distributes over append. -/
theorem noSpace_append {a b : List Char} (ha : NoSpace a) (hb : NoSpace b) :
    NoSpace (a ++ b) := by
  intro c hc
  rcases List.mem_append.mp hc with h | h
  · exact ha c h
  · exact hb c h

/-- A successful `containsSub` means the needle occurs contiguously. -/
theorem containsSub_infixOf : ∀ {hay needle : List Char},
    containsSub needle hay = true → needle <:+: hay
  | [], needle, h => by
    simp only [containsSub, List.isEmpty_iff] at h
    subst h
    exact List.nil_infix
  | c :: t, needle, h => by
    simp only [containsSub, Bool.or_eq_true] at h
    rcases h with h | h
    · have hp : needle <+: c :: t := by simpa using h
      exact hp.isInfix
    · exact List.infix_cons (containsSub_infixOf h)

/-- `containsSub` of a list in itself. -/
theorem containsSub_self : ∀ (l : List Char), containsSub l l = true
  | [] => by simp [containsSub]
  | c :: t => by
    simp only [containsSub, Bool.or_eq_true]
    left
    simp

/-- Digit strings do not contain a month name: the month guard of `extract_date`
is false on the numeric capture groups. -/
theorem containsMonth_of_digits {g : List Char} (h : g.all isDig = true) :
    containsMonth g = false := by
  rw [containsMonth]
  by_contra hc
  rw [Bool.not_eq_false, List.any_eq_true] at hc
  obtain ⟨n, hn, hsub⟩ := hc
  have hid : ∀ (l : List Char), (∀ c ∈ l, Char.toUpper c = c) →
      l.map Char.toUpper = l := by
    intro l
    induction l with
    | nil => intro _; rfl
    | cons a as ih =>
      intro hmem
      simp only [List.map_cons, hmem a (by simp)]
      rw [ih (fun c hc => hmem c (by simp [hc]))]
  have hg : g.map Char.toUpper = g :=
    hid g (fun c hcmem => toUpper_of_digit ((List.all_eq_true.mp h) c hcmem))
  rw [hg] at hsub
  have hinf := containsSub_infixOf hsub
  have hhead : ∃ c ∈ n.map Char.toUpper, isDig c = false := by
    have hall : ∀ x ∈ monthNames, ∃ c ∈ x.map Char.toUpper, isDig c = false := by
      decide
    exact hall n hn
  obtain ⟨c, hcm, hcd⟩ := hhead
  have : c ∈ g := hinf.subset hcm
  have := (List.all_eq_true.mp h) c this
  rw [hcd] at this
  exact Bool.false_ne_true this

/-- The month guard is true on a month capture. -/
theorem containsMonth_of_monthCap {g : List Char} (h : MonthCap g) :
    containsMonth g = true := by
  obtain ⟨n, hn, hmap⟩ := h
  rw [containsMonth, List.any_eq_true]
  refine ⟨n, hn, ?_⟩
  rw [hmap]
  exact containsSub_self _

/-! ## Month-map lookup safety -/

/-- Capitalizing a three-character month capture whose letters uppercase to
`U1 U2 U3` yields `[U1, L2, L3]` with `L2`,`L3` the matching lowercase letters. -/
theorem pyCapitalize_of_monthCap3 {c1 c2 c3 U1 U2 U3 L2 L3 : Char}
    (h1 : c1.toUpper = U1) (h2 : c2.toUpper = U2) (h3 : c3.toUpper = U3)
    (hb2 : 65 ≤ U2.toNat ∧ U2.toNat ≤ 90) (hb3 : 65 ≤ U3.toNat ∧ U3.toNat ≤ 90)
    (hL2 : L2.toNat = U2.toNat + 32) (hL3 : L3.toNat = U3.toNat + 32) :
    pyCapitalize [c1, c2, c3] = [U1, L2, L3] := by
  simp only [pyCapitalize, List.map_cons, List.map_nil]
  rw [h1, toLower_of_toUpper h2 hb2.1 hb2.2 hL2, toLower_of_toUpper h3 hb3.1 hb3.2 hL3]

/-- One month case of the lookup-safety lemma. -/
theorem monthCase {g : List Char} {U1 U2 U3 L2 L3 : Char} {v : List Char}
    (hmap : g.map Char.toUpper = [U1, U2, U3])
    (hb2 : 65 ≤ U2.toNat ∧ U2.toNat ≤ 90) (hb3 : 65 ≤ U3.toNat ∧ U3.toNat ≤ 90)
    (hL2 : L2.toNat = U2.toNat + 32) (hL3 : L3.toNat = U3.toNat + 32)
    (hlook : monthLookup [U1, L2, L3] = .ok v) :
    monthLookup (pyCapitalize g) = .ok v := by
  obtain ⟨a, b, c, rfl⟩ := List.length_eq_three.mp (by
    have hl := congrArg List.length hmap
    simpa using hl)
  simp only [List.map_cons, List.map_nil, List.cons.injEq, and_true] at hmap
  obtain ⟨h1, h2, h3⟩ := hmap
  rw [pyCapitalize_of_monthCap3 h1 h2 h3 hb2 hb3 hL2 hL3]
  exact hlook

/-- On a month capture, `month_map[g.capitalize()]` never raises `KeyError`. -/
theorem monthCap_lookup {g : List Char} (h : MonthCap g) :
    ∃ v, monthLookup (pyCapitalize g) = .ok v := by
  obtain ⟨n, hn, hmap⟩ := h
  simp only [monthNames, List.mem_cons, List.not_mem_nil, or_false] at hn
  rcases hn with h' | h' | h' | h' | h' | h' | h' | h' | h' | h' | h' | h'
  · subst h'
    exact ⟨"01".data, monthCase
      (hmap.trans (show ("Jan".data).map Char.toUpper = ['J', 'A', 'N'] by decide))
      (by decide) (by decide)
      (show ('a' : Char).toNat = ('A' : Char).toNat + 32 by decide)
      (show ('n' : Char).toNat = ('N' : Char).toNat + 32 by decide)
      (by decide)⟩
  · subst h'
    exact ⟨"02".data, monthCase
      (hmap.trans (show ("Feb".data).map Char.toUpper = ['F', 'E', 'B'] by decide))
      (by decide) (by decide)
      (show ('e' : Char).toNat = ('E' : Char).toNat + 32 by decide)
      (show ('b' : Char).toNat = ('B' : Char).toNat + 32 by decide)
      (by decide)⟩
  · subst h'
    exact ⟨"03".data, monthCase
      (hmap.trans (show ("Mar".data).map Char.toUpper = ['M', 'A', 'R'] by decide))
      (by decide) (by decide)
      (show ('a' : Char).toNat = ('A' : Char).toNat + 32 by decide)
      (show ('r' : Char).toNat = ('R' : Char).toNat + 32 by decide)
      (by decide)⟩
  · subst h'
    exact ⟨"04".data, monthCase
      (hmap.trans (show ("Apr".data).map Char.toUpper = ['A', 'P', 'R'] by decide))
      (by decide) (by decide)
      (show ('p' : Char).toNat = ('P' : Char).toNat + 32 by decide)
      (show ('r' : Char).toNat = ('R' : Char).toNat + 32 by decide)
      (by decide)⟩
  · subst h'
    exact ⟨"05".data, monthCase
      (hmap.trans (show ("May".data).map Char.toUpper = ['M', 'A', 'Y'] by decide))
      (by decide) (by decide)
      (show ('a' : Char).toNat = ('A' : Char).toNat + 32 by decide)
      (show ('y' : Char).toNat = ('Y' : Char).toNat + 32 by decide)
      (by decide)⟩
  · subst h'
    exact ⟨"06".data, monthCase
      (hmap.trans (show ("Jun".data).map Char.toUpper = ['J', 'U', 'N'] by decide))
      (by decide) (by decide)
      (show ('u' : Char).toNat = ('U' : Char).toNat + 32 by decide)
      (show ('n' : Char).toNat = ('N' : Char).toNat + 32 by decide)
      (by decide)⟩
  · subst h'
    exact ⟨"07".data, monthCase
      (hmap.trans (show ("Jul".data).map Char.toUpper = ['J', 'U', 'L'] by decide))
      (by decide) (by decide)
      (show ('u' : Char).toNat = ('U' : Char).toNat + 32 by decide)
      (show ('l' : Char).toNat = ('L' : Char).toNat + 32 by decide)
      (by decide)⟩
  · subst h'
    exact ⟨"08".data, monthCase
      (hmap.trans (show ("Aug".data).map Char.toUpper = ['A', 'U', 'G'] by decide))
      (by decide) (by decide)
      (show ('u' : Char).toNat = ('U' : Char).toNat + 32 by decide)
      (show ('g' : Char).toNat = ('G' : Char).toNat + 32 by decide)
      (by decide)⟩
  · subst h'
    exact ⟨"09".data, monthCase
      (hmap.trans (show ("Sep".data).map Char.toUpper = ['S', 'E', 'P'] by decide))
      (by decide) (by decide)
      (show ('e' : Char).toNat = ('E' : Char).toNat + 32 by decide)
      (show ('p' : Char).toNat = ('P' : Char).toNat + 32 by decide)
      (by decide)⟩
  · subst h'
    exact ⟨"10".data, monthCase
      (hmap.trans (show ("Oct".data).map Char.toUpper = ['O', 'C', 'T'] by decide))
      (by decide) (by decide)
      (show ('c' : Char).toNat = ('C' : Char).toNat + 32 by decide)
      (show ('t' : Char).toNat = ('T' : Char).toNat + 32 by decide)
      (by decide)⟩
  · subst h'
    exact ⟨"11".data, monthCase
      (hmap.trans (show ("Nov".data).map Char.toUpper = ['N', 'O', 'V'] by decide))
      (by decide) (by decide)
      (show ('o' : Char).toNat = ('O' : Char).toNat + 32 by decide)
      (show ('v' : Char).toNat = ('V' : Char).toNat + 32 by decide)
      (by decide)⟩
  · subst h'
    exact ⟨"12".data, monthCase
      (hmap.trans (show ("Dec".data).map Char.toUpper = ['D', 'E', 'C'] by decide))
      (by decide) (by decide)
      (show ('e' : Char).toNat = ('E' : Char).toNat + 32 by decide)
      (show ('c' : Char).toNat = ('C' : Char).toNat + 32 by decide)
      (by decide)⟩

/-! ## Matcher invariants -/

/-- What `interp` needs of the capture groups so that the `month_map` lookup can
never raise `KeyError`: each of the first two groups is either all digits or a
month capture. -/
def GuardSafe (dm : DMatch) : Prop :=
  (dm.g1.all isDig = true ∨ MonthCap dm.g1) ∧
  (dm.g2.all isDig = true ∨ MonthCap dm.g2)

/-- The invariant of a date-pattern matcher: it consumes a prefix of the searched text
equal to the matched text, and its captures are guard-safe and whitespace-free. -/
def MOk (m : Char → List Char → Option (DMatch × List Char)) : Prop :=
  ∀ p s dm rest, m p s = some (dm, rest) →
    s = dm.text ++ rest ∧ GuardSafe dm ∧ NoSpace dm.text

/-- A singleton separator is whitespace-free. -/
theorem noSpace_single_sep {c : Char} (h : isSepChar c = true) : NoSpace [c] := by
  intro x hx
  rw [List.mem_singleton.mp hx]
  exact noSpace_of_sep h

/-- A singleton separator-or-comma is whitespace-free. -/
theorem noSpace_single_sepComma {c : Char} (h : isSepComma c = true) : NoSpace [c] := by
  intro x hx
  rw [List.mem_singleton.mp hx]
  exact noSpace_of_sepComma h

theorem matchP1_MOk : MOk matchP1 := by
  intro p s dm rest h
  simp only [matchP1, bind, Option.bind_eq_some, pure, Option.some.injEq,
    Prod.mk.injEq] at h
  obtain ⟨⟨g1, r1⟩, hg1, h⟩ := h
  obtain ⟨⟨c1, r2⟩, hc1, h⟩ := h
  obtain ⟨⟨g2, r3⟩, hg2, h⟩ := h
  obtain ⟨⟨c2, r4⟩, hc2, h⟩ := h
  obtain ⟨⟨g3, r5⟩, hg3, hdm, hrest⟩ := h
  obtain ⟨hs1, hl1, hd1⟩ := takeDigits_spec hg1
  obtain ⟨hs2, hsep1⟩ := takeSep_spec hc1
  obtain ⟨hs3, hl2, hd2⟩ := takeDigits_spec hg2
  obtain ⟨hs4, hsep2⟩ := takeSep_spec hc2
  obtain ⟨hs5, hl3, hd3⟩ := takeDigits_spec hg3
  have hb2 : r1 = c1 :: r2 := hs2
  have hb3 : r2 = g2 ++ r3 := hs3
  have hb4 : r3 = c2 :: r4 := hs4
  have hb5 : r4 = g3 ++ r5 := hs5
  subst hdm
  subst hrest
  refine ⟨?_, ⟨Or.inl hd1, Or.inl hd2⟩, ?_⟩
  · simp [hs1, hb2, hb3, hb4, hb5]
  · exact noSpace_append (noSpace_append (noSpace_append (noSpace_append
      (noSpace_of_digits hd1) (noSpace_single_sep hsep1)) (noSpace_of_digits hd2))
      (noSpace_single_sep hsep2)) (noSpace_of_digits hd3)

theorem matchP2_MOk : MOk matchP2 := by
  intro p s dm rest h
  simp only [matchP2, bind, Option.bind_eq_some, pure, Option.some.injEq,
    Prod.mk.injEq] at h
  obtain ⟨⟨g1, r1⟩, hg1, h⟩ := h
  obtain ⟨⟨c1, r2⟩, hc1, h⟩ := h
  obtain ⟨⟨g2, r3⟩, hg2, h⟩ := h
  obtain ⟨⟨c2, r4⟩, hc2, h⟩ := h
  obtain ⟨⟨g3, r5⟩, hg3, hdm, hrest⟩ := h
  obtain ⟨hs1, hl1, hd1⟩ := takeDigits_spec hg1
  obtain ⟨hs2, hsep1⟩ := takeSep_spec hc1
  obtain ⟨hs3, hl2, hd2⟩ := takeDigits_spec hg2
  obtain ⟨hs4, hsep2⟩ := takeSep_spec hc2
  obtain ⟨hs5, hl3, hd3⟩ := takeDigits_spec hg3
  have hb2 : r1 = c1 :: r2 := hs2
  have hb3 : r2 = g2 ++ r3 := hs3
  have hb4 : r3 = c2 :: r4 := hs4
  have hb5 : r4 = g3 ++ r5 := hs5
  subst hdm
  subst hrest
  refine ⟨?_, ⟨Or.inl hd1, Or.inl hd2⟩, ?_⟩
  · simp [hs1, hb2, hb3, hb4, hb5]
  · exact noSpace_append (noSpace_append (noSpace_append (noSpace_append
      (noSpace_of_digits hd1) (noSpace_single_sep hsep1)) (noSpace_of_digits hd2))
      (noSpace_single_sep hsep2)) (noSpace_of_digits hd3)

theorem matchP3_MOk : MOk matchP3 := by
  intro p s dm rest h
  simp only [matchP3] at h
  by_cases hp : isDig p = true
  · rw [if_pos hp] at h
    exact absurd h (by simp)
  · rw [if_neg hp] at h
    simp only [bind, Option.bind_eq_some] at h
    obtain ⟨⟨g1, r1⟩, hg1, h⟩ := h
    obtain ⟨⟨g2, r2⟩, hg2, h⟩ := h
    obtain ⟨⟨g3, r3⟩, hg3, h⟩ := h
    by_cases hh : headDigit r3 = true
    · rw [if_pos hh] at h
      exact absurd h (by simp)
    · rw [if_neg hh] at h
      simp only [pure, Option.some.injEq, Prod.mk.injEq] at h
      obtain ⟨hdm, hrest⟩ := h
      obtain ⟨hs1, hl1, hd1⟩ := takeDigits_spec hg1
      obtain ⟨hs2, hl2, hd2⟩ := takeDigits_spec hg2
      obtain ⟨hs3, hl3, hd3⟩ := takeDigits_spec hg3
      have hb2 : r1 = g2 ++ r2 := hs2
      have hb3 : r2 = g3 ++ r3 := hs3
      subst hdm
      subst hrest
      refine ⟨?_, ⟨Or.inl hd1, Or.inl hd2⟩, ?_⟩
      · simp [hs1, hb2, hb3]
      · exact noSpace_append (noSpace_append (noSpace_of_digits hd1)
          (noSpace_of_digits hd2)) (noSpace_of_digits hd3)

theorem matchP4_MOk : MOk matchP4 := by
  intro p s dm rest h
  simp only [matchP4] at h
  by_cases hp : isDig p = true
  · rw [if_pos hp] at h
    exact absurd h (by simp)
  · rw [if_neg hp] at h
    simp only [bind, Option.bind_eq_some] at h
    obtain ⟨⟨g1, r1⟩, hg1, h⟩ := h
    obtain ⟨⟨g2, r2⟩, hg2, h⟩ := h
    obtain ⟨⟨g3, r3⟩, hg3, h⟩ := h
    by_cases hh : headDigit r3 = true
    · rw [if_pos hh] at h
      exact absurd h (by simp)
    · rw [if_neg hh] at h
      simp only [pure, Option.some.injEq, Prod.mk.injEq] at h
      obtain ⟨hdm, hrest⟩ := h
      obtain ⟨hs1, hl1, hd1⟩ := takeDigits_spec hg1
      obtain ⟨hs2, hl2, hd2⟩ := takeDigits_spec hg2
      obtain ⟨hs3, hl3, hd3⟩ := takeDigits_spec hg3
      have hb2 : r1 = g2 ++ r2 := hs2
      have hb3 : r2 = g3 ++ r3 := hs3
      subst hdm
      subst hrest
      refine ⟨?_, ⟨Or.inl hd1, Or.inl hd2⟩, ?_⟩
      · simp [hs1, hb2, hb3]
      · exact noSpace_append (noSpace_append (noSpace_of_digits hd1)
          (noSpace_of_digits hd2)) (noSpace_of_digits hd3)

theorem p5tail_spec {g1 s1 cap s2 r : List Char} {dm : DMatch} {rest : List Char}
    (h : p5tail g1 s1 cap s2 r = some (dm, rest)) :
    ∃ g3, dm = ⟨g1, cap, g3, g1 ++ s1 ++ cap ++ s2 ++ g3⟩ ∧
      g3.all isDig = true ∧ g3.length = 2 ∧ r = g3 ++ rest := by
  simp only [p5tail] at h
  split at h
  · exact absurd h (by simp)
  · rename_i g3 r3 htd
    split at h
    · exact absurd h (by simp)
    · simp only [Option.some.injEq, Prod.mk.injEq] at h
      obtain ⟨hdm, hrest⟩ := h
      obtain ⟨hs, hl, hd⟩ := takeDigits_spec htd
      subst hrest
      exact ⟨g3, hdm.symm, hd, hl, hs⟩

theorem p5afterMonth_spec {g1 s1 cap r : List Char} {dm : DMatch} {rest : List Char}
    (h : p5afterMonth g1 s1 cap r = some (dm, rest)) :
    ∃ s2 g3, dm = ⟨g1, cap, g3, g1 ++ s1 ++ cap ++ s2 ++ g3⟩ ∧
      g3.all isDig = true ∧ g3.length = 2 ∧ NoSpace s2 ∧ r = s2 ++ g3 ++ rest := by
  simp only [p5afterMonth] at h
  rcases horElse : (match takeSep r with
      | some (c, r2) => p5tail g1 s1 cap [c] r2
      | none => none) with _ | v
  · rw [horElse, Option.none_orElse] at h
    obtain ⟨g3, hdm, hd, hl, hr⟩ := p5tail_spec h
    exact ⟨[], g3, hdm, hd, hl, by intro x hx; simp at hx, by simpa using hr⟩
  · rw [horElse, Option.some_orElse] at h
    rw [Option.some.injEq] at h
    subst h
    split at horElse
    · rename_i c r2 hts
      obtain ⟨hrc, hsep⟩ := takeSep_spec hts
      obtain ⟨g3, hdm, hd, hl, hr⟩ := p5tail_spec horElse
      exact ⟨[c], g3, hdm, hd, hl, noSpace_single_sep hsep, by simp [hrc, hr]⟩
    · exact absurd horElse (by simp)

theorem p5afterG1_spec {g1 r : List Char} {dm : DMatch} {rest : List Char}
    (h : p5afterG1 g1 r = some (dm, rest)) :
    ∃ s1 cap s2 g3, dm = ⟨g1, cap, g3, g1 ++ s1 ++ cap ++ s2 ++ g3⟩ ∧
      MonthCap cap ∧ g3.all isDig = true ∧ g3.length = 2 ∧
      NoSpace s1 ∧ NoSpace s2 ∧ r = s1 ++ cap ++ s2 ++ g3 ++ rest := by
  simp only [p5afterG1] at h
  rcases horElse : (match takeSep r with
      | some (c, r2) =>
        match takeMonth r2 with
        | some (cap, r3) => p5afterMonth g1 [c] cap r3
        | none => none
      | none => none) with _ | v
  · rw [horElse, Option.none_orElse] at h
    split at h
    · rename_i cap r3 htm
      obtain ⟨hrm, hcap, hlen⟩ := takeMonth_spec htm
      obtain ⟨s2, g3, hdm, hd, hl, hns2, hr⟩ := p5afterMonth_spec h
      exact ⟨[], cap, s2, g3, hdm, hcap, hd, hl, by intro x hx; simp at hx, hns2,
        by simp [hrm, hr]⟩
    · exact absurd h (by simp)
  · rw [horElse, Option.some_orElse] at h
    rw [Option.some.injEq] at h
    subst h
    split at horElse
    · rename_i c r2 hts
      obtain ⟨hrc, hsep⟩ := takeSep_spec hts
      split at horElse
      · rename_i cap r3 htm
        obtain ⟨hrm, hcap, hlen⟩ := takeMonth_spec htm
        obtain ⟨s2, g3, hdm, hd, hl, hns2, hr⟩ := p5afterMonth_spec horElse
        exact ⟨[c], cap, s2, g3, hdm, hcap, hd, hl, noSpace_single_sep hsep, hns2,
          by simp [hrc, hrm, hr]⟩
      · exact absurd horElse (by simp)
    · exact absurd horElse (by simp)

theorem matchP5_MOk : MOk matchP5 := by
  have main : ∀ g1 r s dm rest, s = g1 ++ r → g1.all isDig = true →
      p5afterG1 g1 r = some (dm, rest) →
      s = dm.text ++ rest ∧ GuardSafe dm ∧ NoSpace dm.text := by
    intro g1 r s dm rest hs hd1 hp5
    obtain ⟨s1, cap, s2, g3, hdm, hcap, hd3, hl3, hns1, hns2, hr⟩ := p5afterG1_spec hp5
    subst hdm
    refine ⟨?_, ⟨Or.inl hd1, Or.inr hcap⟩, ?_⟩
    · simp only [hs, hr]
      simp [List.append_assoc]
    · exact noSpace_append (noSpace_append (noSpace_append (noSpace_append
        (noSpace_of_digits hd1) hns1) (noSpace_of_monthCap hcap)) hns2)
        (noSpace_of_digits hd3)
  intro p s dm rest h
  simp only [matchP5] at h
  rcases horElse : (match takeDigits 2 s with
      | some (g1, r) => p5afterG1 g1 r
      | none => none) with _ | v
  · rw [horElse, Option.none_orElse] at h
    split at h
    · rename_i g1 r htd
      obtain ⟨hs, hl, hd⟩ := takeDigits_spec htd
      exact main g1 r s dm rest hs hd h
    · exact absurd h (by simp)
  · rw [horElse, Option.some_orElse] at h
    rw [Option.some.injEq] at h
    subst h
    split at horElse
    · rename_i g1 r htd
      obtain ⟨hs, hl, hd⟩ := takeDigits_spec htd
      exact main g1 r s dm rest hs hd horElse
    · exact absurd horElse (by simp)

theorem p6tail_spec {cap s1 g2 s2 r : List Char} {dm : DMatch} {rest : List Char}
    (h : p6tail cap s1 g2 s2 r = some (dm, rest)) :
    ∃ g3, dm = ⟨cap, g2, g3, cap ++ s1 ++ g2 ++ s2 ++ g3⟩ ∧
      g3.all isDig = true ∧ g3.length = 2 ∧ r = g3 ++ rest := by
  simp only [p6tail] at h
  split at h
  · exact absurd h (by simp)
  · rename_i g3 r3 htd
    split at h
    · exact absurd h (by simp)
    · simp only [Option.some.injEq, Prod.mk.injEq] at h
      obtain ⟨hdm, hrest⟩ := h
      obtain ⟨hs, hl, hd⟩ := takeDigits_spec htd
      subst hrest
      exact ⟨g3, hdm.symm, hd, hl, hs⟩

theorem p6afterG2_spec {cap s1 g2 r : List Char} {dm : DMatch} {rest : List Char}
    (h : p6afterG2 cap s1 g2 r = some (dm, rest)) :
    ∃ s2 g3, dm = ⟨cap, g2, g3, cap ++ s1 ++ g2 ++ s2 ++ g3⟩ ∧
      g3.all isDig = true ∧ g3.length = 2 ∧ NoSpace s2 ∧ r = s2 ++ g3 ++ rest := by
  simp only [p6afterG2] at h
  rcases horElse : (match takeSepComma r with
      | some (c, r2) => p6tail cap s1 g2 [c] r2
      | none => none) with _ | v
  · rw [horElse, Option.none_orElse] at h
    obtain ⟨g3, hdm, hd, hl, hr⟩ := p6tail_spec h
    exact ⟨[], g3, hdm, hd, hl, by intro x hx; simp at hx, by simpa using hr⟩
  · rw [horElse, Option.some_orElse] at h
    rw [Option.some.injEq] at h
    subst h
    split at horElse
    · rename_i c r2 hts
      obtain ⟨hrc, hsep⟩ := takeSepComma_spec hts
      obtain ⟨g3, hdm, hd, hl, hr⟩ := p6tail_spec horElse
      exact ⟨[c], g3, hdm, hd, hl, noSpace_single_sepComma hsep, by simp [hrc, hr]⟩
    · exact absurd horElse (by simp)

theorem p6afterSep_spec {cap s1 r : List Char} {dm : DMatch} {rest : List Char}
    (h : p6afterSep cap s1 r = some (dm, rest)) :
    ∃ g2 s2 g3, dm = ⟨cap, g2, g3, cap ++ s1 ++ g2 ++ s2 ++ g3⟩ ∧
      g2.all isDig = true ∧ g3.all isDig = true ∧ g3.length = 2 ∧
      NoSpace s2 ∧ r = g2 ++ s2 ++ g3 ++ rest := by
  simp only [p6afterSep] at h
  rcases horElse : (match takeDigits 2 r with
      | some (g2, r2) => p6afterG2 cap s1 g2 r2
      | none => none) with _ | v
  · rw [horElse, Option.none_orElse] at h
    split at h
    · rename_i g2 r2 htd
      obtain ⟨hs, hl, hd⟩ := takeDigits_spec htd
      obtain ⟨s2, g3, hdm, hd3, hl3, hns2, hr⟩ := p6afterG2_spec h
      exact ⟨g2, s2, g3, hdm, hd, hd3, hl3, hns2, by simp [hs, hr]⟩
    · exact absurd h (by simp)
  · rw [horElse, Option.some_orElse] at h
    rw [Option.some.injEq] at h
    subst h
    split at horElse
    · rename_i g2 r2 htd
      obtain ⟨hs, hl, hd⟩ := takeDigits_spec htd
      obtain ⟨s2, g3, hdm, hd3, hl3, hns2, hr⟩ := p6afterG2_spec horElse
      exact ⟨g2, s2, g3, hdm, hd, hd3, hl3, hns2, by simp [hs, hr]⟩
    · exact absurd horElse (by simp)

theorem matchP6_MOk : MOk matchP6 := by
  have main : ∀ cap s1 r s dm rest, s = cap ++ s1 ++ r → MonthCap cap → NoSpace s1 →
      p6afterSep cap s1 r = some (dm, rest) →
      s = dm.text ++ rest ∧ GuardSafe dm ∧ NoSpace dm.text := by
    intro cap s1 r s dm rest hs hcap hns1 hp6
    obtain ⟨g2, s2, g3, hdm, hd2, hd3, hl3, hns2, hr⟩ := p6afterSep_spec hp6
    subst hdm
    refine ⟨?_, ⟨Or.inr hcap, Or.inl hd2⟩, ?_⟩
    · simp only [hs, hr]
      simp [List.append_assoc]
    · exact noSpace_append (noSpace_append (noSpace_append (noSpace_append
        (noSpace_of_monthCap hcap) hns1) (noSpace_of_digits hd2)) hns2)
        (noSpace_of_digits hd3)
  intro p s dm rest h
  simp only [matchP6] at h
  split at h
  · exact absurd h (by simp)
  · rename_i cap r htm
    obtain ⟨hrm, hcap, hlen⟩ := takeMonth_spec htm
    rcases horElse : (match takeSep r with
        | some (c, r2) => p6afterSep cap [c] r2
        | none => none) with _ | v
    · rw [horElse, Option.none_orElse] at h
      exact main cap [] r s dm rest (by simp [hrm]) hcap
        (by intro x hx; simp at hx) h
    · rw [horElse, Option.some_orElse] at h
      rw [Option.some.injEq] at h
      subst h
      split at horElse
      · rename_i c r2 hts
        obtain ⟨hrc, hsep⟩ := takeSep_spec hts
        exact main cap [c] r2 s dm rest (by simp [hrm, hrc]) hcap
          (noSpace_single_sep hsep) horElse
      · exact absurd horElse (by simp)

/-- The invariant of a datetime-pattern match: fixed-width digit groups, an
optional three-digit millisecond group, and the matched text assembled from them
around one separator. -/
def GoodDT (m : DTMatch) : Prop :=
  m.y.length = 4 ∧ m.mo.length = 2 ∧ m.d.length = 2 ∧ m.h.length = 2 ∧
  m.mi.length = 2 ∧ m.s.length = 2 ∧
  m.y.all isDig = true ∧ m.mo.all isDig = true ∧ m.d.all isDig = true ∧
  m.h.all isDig = true ∧ m.mi.all isDig = true ∧ m.s.all isDig = true ∧
  (m.ms = none ∨ ∃ l, m.ms = some l ∧ l.all isDig = true ∧ l.length = 3) ∧
  ∃ sep, isSepChar sep = true ∧
    m.text = m.y ++ m.mo ++ m.d ++ [sep] ++ m.h ++ m.mi ++ m.s ++
      (match m.ms with
       | some l => l
       | none => [])

theorem matchDT_ok : ∀ p s dtm rest, matchDT p s = some (dtm, rest) →
    s = dtm.text ++ rest ∧ GoodDT dtm ∧ NoSpace dtm.text := by
  intro p s dtm rest h
  simp only [matchDT, bind, Option.bind_eq_some] at h
  obtain ⟨⟨y, r1⟩, hy, h⟩ := h
  obtain ⟨⟨mo, r2⟩, hmo, h⟩ := h
  obtain ⟨⟨d, r3⟩, hd, h⟩ := h
  obtain ⟨⟨sep, r4⟩, hsep, h⟩ := h
  obtain ⟨⟨hh, r5⟩, hho, h⟩ := h
  obtain ⟨⟨mi, r6⟩, hmi, h⟩ := h
  obtain ⟨⟨se, r7⟩, hse, h⟩ := h
  obtain ⟨hsy, hly, hdy⟩ := takeDigits_spec hy
  obtain ⟨hsmo, hlmo, hdmo⟩ := takeDigits_spec hmo
  obtain ⟨hsd, hld, hdd⟩ := takeDigits_spec hd
  obtain ⟨hssep, hsepc⟩ := takeSep_spec hsep
  obtain ⟨hsh, hlh, hdh⟩ := takeDigits_spec hho
  obtain ⟨hsmi, hlmi, hdmi⟩ := takeDigits_spec hmi
  obtain ⟨hsse, hlse, hdse⟩ := takeDigits_spec hse
  have hb1 : r1 = mo ++ r2 := hsmo
  have hb2 : r2 = d ++ r3 := hsd
  have hb3 : r3 = sep :: r4 := hssep
  have hb4 : r4 = hh ++ r5 := hsh
  have hb5 : r5 = mi ++ r6 := hsmi
  have hb6 : r6 = se ++ r7 := hsse
  split at h
  · rename_i ms r8 hms
    have hms' : takeDigits 3 r7 = some (ms, r8) := hms
    obtain ⟨hsms, hlms, hdms⟩ := takeDigits_spec hms'
    simp only [pure, Option.some.injEq, Prod.mk.injEq] at h
    obtain ⟨hdtm, hrest⟩ := h
    subst hdtm
    subst hrest
    refine ⟨?_, ?_, ?_⟩
    · simp only [hsy, hb1, hb2, hb3, hb4, hb5, hb6, hsms]
      simp [List.append_assoc]
    · exact ⟨hly, hlmo, hld, hlh, hlmi, hlse, hdy, hdmo, hdd, hdh, hdmi, hdse,
        Or.inr ⟨ms, rfl, hdms, hlms⟩, sep, hsepc, by simp⟩
    · exact noSpace_append (noSpace_append (noSpace_append (noSpace_append
        (noSpace_append (noSpace_append (noSpace_append
          (noSpace_of_digits hdy) (noSpace_of_digits hdmo)) (noSpace_of_digits hdd))
          (noSpace_single_sep hsepc)) (noSpace_of_digits hdh))
          (noSpace_of_digits hdmi)) (noSpace_of_digits hdse)) (noSpace_of_digits hdms)
  · rename_i hms
    simp only [pure, Option.some.injEq, Prod.mk.injEq] at h
    obtain ⟨hdtm, hrest⟩ := h
    subst hdtm
    subst hrest
    refine ⟨?_, ?_, ?_⟩
    · simp only [hsy, hb1, hb2, hb3, hb4, hb5, hb6]
      simp [List.append_assoc]
    · exact ⟨hly, hlmo, hld, hlh, hlmi, hlse, hdy, hdmo, hdd, hdh, hdmi, hdse,
        Or.inl rfl, sep, hsepc, by simp⟩
    · exact noSpace_append (noSpace_append (noSpace_append (noSpace_append
        (noSpace_append (noSpace_append
          (noSpace_of_digits hdy) (noSpace_of_digits hdmo)) (noSpace_of_digits hdd))
          (noSpace_single_sep hsepc)) (noSpace_of_digits hdh))
          (noSpace_of_digits hdmi)) (noSpace_of_digits hdse)

/-! ## Search lemmas -/

/-- Any property that a matcher guarantees of its match holds of the search result. -/
theorem searchAux_pred {α : Type} {m : Char → List Char → Option (α × List Char)}
    {P : α → Prop} (hm : ∀ p s a r, m p s = some (a, r) → P a) :
    ∀ {p : Char} {s : List Char} {a : α}, searchAux m p s = some a → P a := by
  intro p s
  induction s generalizing p with
  | nil => intro a h; simp [searchAux] at h
  | cons c cs ih =>
    intro a h
    simp only [searchAux] at h
    split at h
    · rename_i v r hv
      rw [Option.some.injEq] at h
      subst h
      exact hm p (c :: cs) v r hv
    · exact ih h

/-- The search result's text occurs contiguously in the searched string, provided
the matcher consumes a prefix equal to that text. -/
theorem searchAux_split {α : Type} {m : Char → List Char → Option (α × List Char)}
    {tx : α → List Char} (hm : ∀ p s a r, m p s = some (a, r) → s = tx a ++ r) :
    ∀ {p : Char} {s : List Char} {a : α}, searchAux m p s = some a →
      ∃ u v, s = u ++ tx a ++ v := by
  intro p s
  induction s generalizing p with
  | nil => intro a h; simp [searchAux] at h
  | cons c cs ih =>
    intro a h
    simp only [searchAux] at h
    split at h
    · rename_i v r hv
      rw [Option.some.injEq] at h
      subst h
      exact ⟨[], r, by simpa using hm p (c :: cs) v r hv⟩
    · obtain ⟨u, w, hu⟩ := ih h
      exact ⟨c :: u, w, by simp [hu]⟩

/-- `pyStrip` is the identity on whitespace-free strings. -/
theorem pyStrip_eq_self {t : List Char} (h : NoSpace t) : pyStrip t = t := by
  have hdrop : ∀ (l : List Char), NoSpace l → l.dropWhile pyIsSpace = l := by
    intro l hl
    cases l with
    | nil => rfl
    | cons c cs => simp [List.dropWhile_cons, hl c (by simp)]
  rw [pyStrip, hdrop t h, hdrop t.reverse (by intro c hc; exact h c (by simpa using hc)),
    List.reverse_reverse]

/-- A whitespace-free contiguous substring of the space-padded filename is a
contiguous substring of the filename itself. -/
theorem unpad {t f : List Char} (hsp : NoSpace t)
    (h : ∃ u v, ' ' :: (f ++ [' ']) = u ++ t ++ v) : t <:+: f := by
  obtain ⟨u, v, huv⟩ := h
  cases t with
  | nil => exact List.nil_infix
  | cons t0 ts =>
    have hsp0 : pyIsSpace t0 = false := hsp t0 (by simp)
    cases u with
    | nil =>
      exfalso
      simp only [List.nil_append, List.cons_append, List.cons.injEq] at huv
      rw [← huv.1] at hsp0
      simp [pyIsSpace] at hsp0
    | cons u0 us =>
      simp only [List.cons_append, List.cons.injEq, List.append_assoc] at huv
      obtain ⟨hu0, hf⟩ := huv
      rcases List.eq_nil_or_concat v with hv | ⟨v', a, hv⟩
      · exfalso
        subst hv
        rw [List.append_nil] at hf
        rcases List.eq_nil_or_concat (t0 :: ts) with ht | ⟨t', b, ht⟩
        · exact absurd ht (by simp)
        · have hf' : f ++ [' '] = (us ++ t') ++ [b] := by
            rw [hf, ht]; simp [List.concat_eq_append]
          obtain ⟨hf1, hf2⟩ := List.append_inj' hf' (by simp)
          have hbmem : b ∈ t0 :: ts := by rw [ht]; simp [List.concat_eq_append]
          have hbs := hsp b hbmem
          have hb' : ' ' = b := by simpa using hf2
          rw [← hb'] at hbs
          simp [pyIsSpace] at hbs
      · subst hv
        have hf' : f ++ [' '] = (us ++ (t0 :: ts) ++ v') ++ [a] := by
          rw [hf]; simp [List.concat_eq_append]
        obtain ⟨hf1, hf2⟩ := List.append_inj' hf' (by simp)
        exact ⟨us, v', hf1.symm⟩

/-! ## Interpretation lemmas -/

/-- `interp` returns only date strings that passed the `strptime` validation. -/
theorem interp_ok_strp {dm : DMatch} {ds : List Char} (h : interp dm = .ok ds) :
    strpYmdOk ds = true := by
  simp only [interp] at h
  split at h
  · exact absurd h (by simp)
  · split at h
    · rename_i hval
      rw [Except.ok.injEq] at h
      rwa [← h]
    · exact absurd h (by simp)

/-- On guard-safe capture groups, the group interpretation never raises
`KeyError` (the only exception of the body that `except ValueError` would not
catch). -/
theorem interpYMD_no_keyError {dm : DMatch} (hg : GuardSafe dm) :
    interpYMD dm ≠ .error .keyError := by
  intro h
  simp only [interpYMD] at h
  split at h
  · rename_i hcm2
    split at h
    · rename_i e herr
      rw [Except.error.injEq] at h
      subst h
      rcases hg.2 with hd2 | hcap2
      · rw [containsMonth_of_digits hd2] at hcm2
        exact absurd hcm2 (by simp)
      · obtain ⟨v, hv⟩ := monthCap_lookup hcap2
        rw [hv] at herr
        exact absurd herr (by simp)
    · exact absurd h (by simp)
  · split at h
    · rename_i hcm1
      split at h
      · rename_i e herr
        rw [Except.error.injEq] at h
        subst h
        rcases hg.1 with hd1 | hcap1
        · rw [containsMonth_of_digits hd1] at hcm1
          exact absurd hcm1 (by simp)
        · obtain ⟨v, hv⟩ := monthCap_lookup hcap1
          rw [hv] at herr
          exact absurd herr (by simp)
      · exact absurd h (by simp)
    · split at h
      · split at h <;> exact absurd h (by simp)
      · split at h
        · exact absurd h (by simp)
        · split at h
          · rename_i e herr
            rw [Except.error.injEq] at h
            subst h
            simp only [pyInt] at herr
            split at herr
            · exact absurd herr (by simp)
            · rw [Except.error.injEq] at herr
              exact absurd herr.symm (by simp)
          · split at h <;> exact absurd h (by simp)

/-- On guard-safe capture groups, `interp` never raises `KeyError`. -/
theorem interp_no_keyError {dm : DMatch} (hg : GuardSafe dm) :
    interp dm ≠ .error .keyError := by
  intro h
  simp only [interp] at h
  split at h
  · rename_i e herr
    rw [Except.error.injEq] at h
    subst h
    exact interpYMD_no_keyError hg herr
  · split at h
    · exact absurd h (by simp)
    · rw [Except.error.injEq] at h
      exact absurd h.symm (by simp)

/-- Every matcher of the pattern table satisfies the matcher invariant. -/
theorem dateMatchers_MOk : ∀ m ∈ dateMatchers, MOk m := by
  intro m hm
  simp only [dateMatchers, List.mem_cons, List.not_mem_nil, or_false] at hm
  rcases hm with h | h | h | h | h | h
  · exact h ▸ matchP1_MOk
  · exact h ▸ matchP2_MOk
  · exact h ▸ matchP3_MOk
  · exact h ▸ matchP4_MOk
  · exact h ▸ matchP5_MOk
  · exact h ▸ matchP6_MOk

/-- The combined specification of the pattern loop: it never propagates an
exception, and a successful result carries a `strptime`-validated stamp and a
matched text occurring contiguously in the filename. -/
theorem dateLoop_spec : ∀ (ms : List (Char → List Char → Option (DMatch × List Char)))
    (f : List Char), (∀ m ∈ ms, MOk m) →
    (∃ o, dateLoop ms f = .ok o) ∧
    (∀ s mt, dateLoop ms f = .ok (some (s, mt)) →
      strpYmdOk s = true ∧ mt <:+: f)
  | [], f, _ => by
    refine ⟨⟨none, rfl⟩, ?_⟩
    intro s mt h
    simp only [dateLoop] at h
    rw [Except.ok.injEq] at h
    exact absurd h (by simp)
  | m :: ms, f, h => by
    have hm : MOk m := h m (by simp)
    have ih := dateLoop_spec ms f (fun m' hm' => h m' (by simp [hm']))
    cases hrs : reSearch m f with
    | none =>
      have hred : dateLoop (m :: ms) f = dateLoop ms f := by
        simp only [dateLoop, hrs]
      rw [hred]
      exact ih
    | some dm =>
      have hprops : GuardSafe dm ∧ NoSpace dm.text :=
        @searchAux_pred DMatch m (fun x => GuardSafe x ∧ NoSpace x.text)
          (fun p s a r hms => ⟨(hm p s a r hms).2.1, (hm p s a r hms).2.2⟩)
          ' ' (' ' :: (f ++ [' '])) dm hrs
      have hsplit : ∃ u v, ' ' :: (f ++ [' ']) = u ++ dm.text ++ v :=
        @searchAux_split DMatch m DMatch.text
          (fun p s a r hms => (hm p s a r hms).1)
          ' ' (' ' :: (f ++ [' '])) dm hrs
      have htext : dm.text <:+: f := unpad hprops.2 hsplit
      cases hi : interp dm with
      | ok ds =>
        have hred : dateLoop (m :: ms) f = .ok (some (ds, pyStrip dm.text)) := by
          simp only [dateLoop, hrs, hi]
        rw [hred]
        refine ⟨⟨some (ds, pyStrip dm.text), rfl⟩, ?_⟩
        intro s mt hs
        rw [Except.ok.injEq, Option.some.injEq, Prod.mk.injEq] at hs
        obtain ⟨hs1, hs2⟩ := hs
        subst hs1
        subst hs2
        rw [pyStrip_eq_self hprops.2]
        exact ⟨interp_ok_strp hi, htext⟩
      | error e =>
        cases e with
        | valueError =>
          have hred : dateLoop (m :: ms) f = dateLoop ms f := by
            simp only [dateLoop, hrs, hi]
          rw [hred]
          exact ih
        | keyError => exact absurd hi (interp_no_keyError hprops.1)

/-! ## Datetime extraction lemmas -/

/-- Length-four lists are four explicit elements. -/
theorem length_eq_four {α : Type} {l : List α} :
    l.length = 4 ↔ ∃ a b c d, l = [a, b, c, d] := by
  constructor
  · intro h
    cases l with
    | nil => simp at h
    | cons a t =>
      obtain ⟨b, c, d, ht⟩ := List.length_eq_three.mp (by simpa using h)
      exact ⟨a, b, c, d, by rw [ht]⟩
  · rintro ⟨a, b, c, d, rfl⟩
    rfl

/-- Length-two lists are two explicit elements (restated from Mathlib for reuse). -/
theorem length_eq_two' {α : Type} {l : List α} :
    l.length = 2 ↔ ∃ a b, l = [a, b] := List.length_eq_two

/-- A validated datetime match yields a stamp satisfying the specification's
datetime-stamp predicate. -/
theorem iso_valid {m : DTMatch} (hg : GoodDT m)
    (hval : strpYmdHMSOk ((m.y ++ m.mo ++ m.d) ++ (m.h ++ m.mi ++ m.s)) = true) :
    validDatetimeStamp ((m.y ++ m.mo ++ m.d) ++ 'T' :: ((m.h ++ m.mi ++ m.s) ++
      (match m.ms with
       | some ms => '.' :: ms
       | none => []))) = true := by
  obtain ⟨hly, hlmo, hld, hlh, hlmi, hls, hdy, hdmo, hdd, hdh, hdmi, hds, hms, _⟩ := hg
  obtain ⟨y1, y2, y3, y4, hy⟩ := length_eq_four.mp hly
  obtain ⟨m1, m2, hmo⟩ := length_eq_two'.mp hlmo
  obtain ⟨d1, d2, hd⟩ := length_eq_two'.mp hld
  obtain ⟨h1, h2, hh⟩ := length_eq_two'.mp hlh
  obtain ⟨i1, i2, hmi⟩ := length_eq_two'.mp hlmi
  obtain ⟨s1, s2, hs⟩ := length_eq_two'.mp hls
  rw [hy, hmo, hd, hh, hmi, hs] at hval ⊢
  rw [hy] at hdy
  rw [hmo] at hdmo
  rw [hd] at hdd
  rw [hh] at hdh
  rw [hmi] at hdmi
  rw [hs] at hds
  simp only [strpYmdHMSOk, Bool.and_eq_true, decide_eq_true_eq, List.cons_append,
    List.nil_append, List.take_succ_cons, List.take_zero, List.drop_succ_cons,
    List.drop_zero, List.all_cons, List.all_nil] at hval
  obtain ⟨⟨⟨_, hcy1, hcy2, hcy3, hcy4, hcm1, hcm2, hcd1, hcd2, hch1, hch2, hci1,
    hci2, hcs1, hcs2, _⟩, hdc⟩, htc⟩ := hval
  rcases hms with hnone | ⟨ms, hsome, hdms, hlms⟩
  · rw [hnone]
    simp only [validDatetimeStamp, validDateStamp8, List.cons_append, List.nil_append,
      List.append_nil, List.take_succ_cons, List.take_zero, List.drop_succ_cons,
      List.drop_zero, List.all_cons, List.all_nil, List.head?_cons, List.length_cons,
      List.length_nil, List.isEmpty_nil, Bool.and_eq_true, Bool.or_eq_true,
      decide_eq_true_eq, beq_self_eq_true, List.take_nil, List.drop_nil]
    and_intros
    all_goals first
      | trivial
      | omega
      | exact hdc
      | exact htc
      | assumption
  · rw [hsome]
    simp only [validDatetimeStamp, validDateStamp8, List.cons_append, List.nil_append,
      List.take_succ_cons, List.take_zero, List.drop_succ_cons,
      List.drop_zero, List.all_cons, List.all_nil, List.head?_cons, List.length_cons,
      Bool.and_eq_true, Bool.or_eq_true,
      decide_eq_true_eq, beq_self_eq_true] at hlms ⊢
    and_intros
    all_goals first
      | trivial
      | omega
      | exact hdc
      | exact htc
      | assumption
      | (right
         simp only [List.head?_cons, beq_self_eq_true, List.length_cons, hlms,
           List.drop_succ_cons, List.drop_zero, hdms, decide_eq_true_eq]
         and_intros <;> first | rfl | trivial | omega | exact hdms)

/-- The combined specification of `extract_datetime`: it never propagates an
exception, and a successful result carries a valid datetime stamp and a matched
text occurring contiguously in the filename. -/
theorem extract_datetime_spec (f : List Char) :
    (∃ o, extract_datetime f = .ok o) ∧
    (∀ s mt b, extract_datetime f = .ok (some (s, mt), b) →
      validDatetimeStamp s = true ∧ mt <:+: f) := by
  cases hrs : reSearch matchDT f with
  | none =>
    have hred : extract_datetime f = .ok (none, false) := by
      simp only [extract_datetime, hrs]
    rw [hred]
    refine ⟨⟨(none, false), rfl⟩, ?_⟩
    intro s mt b h
    rw [Except.ok.injEq, Prod.mk.injEq] at h
    exact absurd h.1 (by simp)
  | some m =>
    have hprops : GoodDT m ∧ NoSpace m.text :=
      @searchAux_pred DTMatch matchDT (fun x => GoodDT x ∧ NoSpace x.text)
        (fun p s a r hms => ⟨(matchDT_ok p s a r hms).2.1, (matchDT_ok p s a r hms).2.2⟩)
        ' ' (' ' :: (f ++ [' '])) m hrs
    have hsplit : ∃ u v, ' ' :: (f ++ [' ']) = u ++ m.text ++ v :=
      @searchAux_split DTMatch matchDT DTMatch.text
        (fun p s a r hms => (matchDT_ok p s a r hms).1)
        ' ' (' ' :: (f ++ [' '])) m hrs
    have htext : m.text <:+: f := unpad hprops.2 hsplit
    by_cases hval : strpYmdHMSOk ((m.y ++ m.mo ++ m.d) ++ (m.h ++ m.mi ++ m.s)) = true
    · have hred : extract_datetime f = .ok (some ((m.y ++ m.mo ++ m.d) ++
          'T' :: ((m.h ++ m.mi ++ m.s) ++
            (match m.ms with
             | some ms => '.' :: ms
             | none => [])), pyStrip m.text), true) := by
        simp only [extract_datetime, hrs, hval, if_true]
        simp [List.append_assoc]
      rw [hred]
      refine ⟨⟨_, rfl⟩, ?_⟩
      intro s mt b h
      rw [Except.ok.injEq, Prod.mk.injEq] at h
      obtain ⟨h1, h2⟩ := h
      rw [Option.some.injEq, Prod.mk.injEq] at h1
      obtain ⟨hiso, hmt⟩ := h1
      rw [← hiso, ← hmt, pyStrip_eq_self hprops.2]
      exact ⟨iso_valid hprops.1 hval, htext⟩
    · rw [Bool.not_eq_true] at hval
      have hred : extract_datetime f = .ok (none, false) := by
        simp only [extract_datetime, hrs, hval, Bool.false_eq_true, if_false]
      rw [hred]
      refine ⟨⟨(none, false), rfl⟩, ?_⟩
      intro s mt b h
      rw [Except.ok.injEq, Prod.mk.injEq] at h
      exact absurd h.1 (by simp)

/-! ## Main claim theorems -/

/-- C1: for every filename, a non-none stamp from `extract_date` is an 8-digit
calendar-valid `YYYYMMDD` string, and a non-none stamp from `extract_datetime`
has a calendar-valid date part and a valid time of day (hour 0-23, minute 0-59,
second 0-59), optionally followed by three millisecond digits. -/
theorem C1_stamps_valid (f : List Char) :
    (∀ s mt, extract_date f = .ok (some (s, mt)) → validDateStamp8 s = true) ∧
    (∀ s mt b, extract_datetime f = .ok (some (s, mt), b) →
      validDatetimeStamp s = true) := by
  constructor
  · intro s mt h
    exact ((dateLoop_spec dateMatchers f dateMatchers_MOk).2 s mt h).1
  · intro s mt b h
    exact ((extract_datetime_spec f).2 s mt b h).1

/-- C1 witness: concrete instances of both halves. -/
theorem C1_stamps_valid_witness :
    extract_date ("data_2023-12-25_raw.csv".data) =
      .ok (some ("20231225".data, "2023-12-25".data)) ∧
    validDateStamp8 ("20231225".data) = true ∧
    extract_datetime ("photo_20240315_120530.jpg".data) =
      .ok (some ("20240315T120530".data, "20240315_120530".data), true) ∧
    validDatetimeStamp ("20240315T120530".data) = true := by
  refine ⟨by decide, ?_, by decide, ?_⟩
  · exact (C1_stamps_valid ("data_2023-12-25_raw.csv".data)).1 ("20231225".data)
      ("2023-12-25".data) (by decide)
  · exact (C1_stamps_valid ("photo_20240315_120530.jpg".data)).2 ("20240315T120530".data)
      ("20240315_120530".data) true (by decide)

/-- C9: the extraction functions are total — for every string input they return
a result (`.ok`), never a propagated Python exception: every failed numeric
conversion or calendar validation is handled internally. -/
theorem C9_extraction_total (f : List Char) :
    (∃ r, extract_date f = .ok r) ∧ (∃ r, extract_datetime f = .ok r) :=
  ⟨(dateLoop_spec dateMatchers f dateMatchers_MOk).1, (extract_datetime_spec f).1⟩

/-- C10: whenever extraction returns a non-none result, the returned matched
text is a contiguous substring of the original filename — the space padding used
for boundary matching never leaks into it. -/
theorem C10_matched_text_in_filename (f : List Char) :
    (∀ s mt, extract_date f = .ok (some (s, mt)) → mt <:+: f) ∧
    (∀ s mt b, extract_datetime f = .ok (some (s, mt), b) → mt <:+: f) :=
  ⟨fun s mt h => ((dateLoop_spec dateMatchers f dateMatchers_MOk).2 s mt h).2,
   fun s mt b h => ((extract_datetime_spec f).2 s mt b h).2⟩

/-- C10 witness: concrete instances of both halves. -/
theorem C10_matched_text_witness :
    extract_date ("invoice_12-03-2024.pdf".data) =
      .ok (some ("20240312".data, "12-03-2024".data)) ∧
    ("12-03-2024".data) <:+: ("invoice_12-03-2024.pdf".data) ∧
    extract_datetime ("PXL_20260204_181153683.MP.jpg".data) =
      .ok (some ("20260204T181153.683".data, "20260204_181153683".data), true) ∧
    ("20260204_181153683".data) <:+: ("PXL_20260204_181153683.MP.jpg".data) := by
  refine ⟨by decide, ?_, by decide, ?_⟩
  · exact (C10_matched_text_in_filename ("invoice_12-03-2024.pdf".data)).1
      ("20240312".data) ("12-03-2024".data) (by decide)
  · exact (C10_matched_text_in_filename ("PXL_20260204_181153683.MP.jpg".data)).2
      ("20260204T181153.683".data) ("20260204_181153683".data) true (by decide)

/-- The rewrite always produces `{date_str}_{cleaned}.{ext}`. -/
theorem compute_new_name_shape (f mt ds : List Char) :
    ∃ mid, compute_new_name f mt ds = ds ++ '_' :: (mid ++ '.' :: extOf f) :=
  ⟨_, rfl⟩

/-- C8: for every filename and every extraction result `(stamp, matched)`
obtained from it, the rewritten name starts with `stamp` followed by `'_'` and
ends with `'.'` followed by the original extension (the text the code takes from
`filename.split('.')[-1]`). -/
theorem C8_roundtrip (f s mt : List Char)
    (h : extract_date f = .ok (some (s, mt)) ∨
         extract_datetime f = .ok (some (s, mt), true)) :
    (s ++ ['_']) <+: compute_new_name f mt s ∧
    ('.' :: extOf f) <:+ compute_new_name f mt s := by
  obtain ⟨mid, hm⟩ := compute_new_name_shape f mt s
  rw [hm]
  constructor
  · exact ⟨mid ++ '.' :: extOf f, by simp⟩
  · exact ⟨s ++ '_' :: mid, by simp⟩

/-- C8 witness: a concrete extraction result and its rewrite. -/
theorem C8_roundtrip_witness :
    extract_date ("invoice_12-03-2024.pdf".data) =
      .ok (some ("20240312".data, "12-03-2024".data)) ∧
    (("20240312".data ++ ['_']) <+:
      compute_new_name ("invoice_12-03-2024.pdf".data) ("12-03-2024".data)
        ("20240312".data)) ∧
    (('.' :: extOf ("invoice_12-03-2024.pdf".data)) <:+
      compute_new_name ("invoice_12-03-2024.pdf".data) ("12-03-2024".data)
        ("20240312".data)) := by
  have h := C8_roundtrip ("invoice_12-03-2024.pdf".data) ("20240312".data)
    ("12-03-2024".data) (Or.inl (by decide))
  exact ⟨by decide, h.1, h.2⟩

/-! ## Amended claim theorems -/

/-- Helper: `takeWhile` stops exactly at the first failing element. -/
theorem takeWhile_all_append {p : Char → Bool} : ∀ {l : List Char} {x : Char}
    {r : List Char}, (∀ c ∈ l, p c = true) → p x = false →
    (l ++ x :: r).takeWhile p = l
  | [], x, r, _, hx => by simp [List.takeWhile_cons, hx]
  | c :: cs, x, r, hl, hx => by
    rw [List.cons_append, List.takeWhile_cons, if_pos (hl c (by simp)),
      takeWhile_all_append (fun d hd => hl d (by simp [hd])) hx]

/-- Helper: `dropWhile` drops exactly up to the first failing element. -/
theorem dropWhile_all_append {p : Char → Bool} : ∀ {l : List Char} {x : Char}
    {r : List Char}, (∀ c ∈ l, p c = true) → p x = false →
    (l ++ x :: r).dropWhile p = x :: r
  | [], x, r, _, hx => by simp [List.dropWhile_cons, hx]
  | c :: cs, x, r, hl, hx => by
    rw [List.cons_append, List.dropWhile_cons, if_pos (hl c (by simp))]
    exact dropWhile_all_append (fun d hd => hl d (by simp [hd])) hx

/-- C2 amended: for every filename containing a `'.'`, the rewrite computes the
stem as the text before the **last** dot and the extension as the text after the
last dot (`rsplit('.', 1)[0]` and `split('.')[-1]` agree on the last dot). -/
theorem C2_amended_last_dot (f stem ext : List Char)
    (hsplit : f = stem ++ '.' :: ext) (hnd : '.' ∉ ext) :
    stemOf f = stem ∧ extOf f = ext := by
  have hrev : f.reverse = ext.reverse ++ '.' :: stem.reverse := by
    rw [hsplit]
    simp
  have hall : ∀ c ∈ ext.reverse, (c != '.') = true := by
    intro c hc
    rw [List.mem_reverse] at hc
    simp only [bne_iff_ne, ne_eq]
    intro hcd
    exact hnd (hcd ▸ hc)
  have hdot : (('.' : Char) != '.') = false := by decide
  constructor
  · rw [stemOf, if_pos (by rw [hsplit]; simp)]
    rw [hrev, dropWhile_all_append hall hdot]
    simp
  · rw [extOf, hrev, takeWhile_all_append hall hdot]
    simp

/-- C2 amended witness: the multi-dot example from the claim. -/
theorem C2_amended_witness :
    stemOf ("PXL_20260204_181153683.MP.jpg".data) =
      "PXL_20260204_181153683.MP".data ∧
    extOf ("PXL_20260204_181153683.MP.jpg".data) = "jpg".data :=
  C2_amended_last_dot ("PXL_20260204_181153683.MP.jpg".data)
    ("PXL_20260204_181153683.MP".data) ("jpg".data) (by decide) (by decide)

/-- C4 amended: `extract_datetime` examines only the first regex occurrence of
the (single) datetime pattern; when that occurrence fails date/time validation,
the `except ValueError: continue` moves to the next pattern — there is none — and
the function returns no-match, regardless of any later valid occurrence. -/
theorem C4_amended_first_occurrence_only (f : List Char) (m : DTMatch)
    (hs : reSearch matchDT f = some m)
    (hval : strpYmdHMSOk ((m.y ++ m.mo ++ m.d) ++ (m.h ++ m.mi ++ m.s)) = false) :
    extract_datetime f = .ok (none, false) := by
  simp only [extract_datetime, hs, hval, Bool.false_eq_true, if_false]

/-- C4 amended witness: the two-datetime filename whose first occurrence has
hour 25. -/
theorem C4_amended_witness :
    reSearch matchDT ("20260204_251153_20260204_181153".data) =
      some ⟨"2026".data, "02".data, "04".data, "25".data, "11".data, "53".data,
            none, "20260204_251153".data⟩ ∧
    extract_datetime ("20260204_251153_20260204_181153".data) = .ok (none, false) :=
  ⟨by decide,
   C4_amended_first_occurrence_only ("20260204_251153_20260204_181153".data)
     ⟨"2026".data, "02".data, "04".data, "25".data, "11".data, "53".data,
      none, "20260204_251153".data⟩ (by decide) (by decide)⟩

/-- C5 amended: only the two no-separator date patterns (`YYYYMMDD` and
`MMDDYYYY`, patterns 3 and 4) carry digit-boundary assertions on both sides: a
match of either is never immediately preceded or followed by a digit. The
separator-based date patterns and the datetime pattern carry no such assertions
(see the counterexample). -/
theorem C5_amended_boundary (p : Char) (s : List Char) (dm : DMatch)
    (rest : List Char)
    (h : matchP3 p s = some (dm, rest) ∨ matchP4 p s = some (dm, rest)) :
    isDig p = false ∧ ∀ c cs, rest = c :: cs → isDig c = false := by
  have main : ∀ {n1 n2 n3 : Nat},
      (if isDig p then none
       else do
        let (g1, r1) ← takeDigits n1 s
        let (g2, r2) ← takeDigits n2 r1
        let (g3, r3) ← takeDigits n3 r2
        if headDigit r3 then none
        else pure ((⟨g1, g2, g3, g1 ++ g2 ++ g3⟩ : DMatch), r3)) = some (dm, rest) →
      isDig p = false ∧ ∀ c cs, rest = c :: cs → isDig c = false := by
    intro n1 n2 n3 h
    split at h
    · exact absurd h (by simp)
    · rename_i hp
      refine ⟨by simpa using hp, ?_⟩
      simp only [bind, Option.bind_eq_some] at h
      obtain ⟨⟨g1, r1⟩, hg1, h⟩ := h
      obtain ⟨⟨g2, r2⟩, hg2, h⟩ := h
      obtain ⟨⟨g3, r3⟩, hg3, h⟩ := h
      split at h
      · exact absurd h (by simp)
      · rename_i hh
        simp only [pure, Option.some.injEq, Prod.mk.injEq] at h
        obtain ⟨hdm, hrest⟩ := h
        subst hrest
        intro c cs hc
        rw [hc] at hh
        simpa [headDigit] using hh
  rcases h with h | h
  · exact main h
  · exact main h

/-- C5 amended witness: a concrete pattern-3 match at the end of a padded name. -/
theorem C5_amended_witness :
    matchP3 '_' ("20260204 ".data) =
      some (⟨"2026".data, "02".data, "04".data, "20260204".data⟩, [' ']) ∧
    isDig '_' = false :=
  ⟨by decide,
   (C5_amended_boundary '_' ("20260204 ".data)
     ⟨"2026".data, "02".data, "04".data, "20260204".data⟩ [' ']
     (Or.inl (by decide))).1⟩

/-- C9 witness: a concrete instance. -/
theorem C9_extraction_total_witness :
    (∃ r, extract_date ("no_date_file.txt".data) = .ok r) ∧
    (∃ r, extract_datetime ("no_date_file.txt".data) = .ok r) :=
  C9_extraction_total ("no_date_file.txt".data)
